import Mathlib

/-!
# The libp2p peer-id data source of terraform-provider-libp2p

A shallow embedding of `internal/provider/peer_id.go`: the `Read` method of
`PeerIdDataSource`, together with the library functions it calls
(`encoding/base64`, `crypto/ed25519`, `crypto/sha512`, go-libp2p
`core/crypto` and `core/peer`, go-multihash, go-varint, mr-tron/base58).

Conventions.  A Go `[]byte` or `string` is a `List Nat` whose elements are
below 256.  A Go function returning `(v, err)` whose error the caller tests
is an `Except`; one whose error the caller drops returns the pair.  A Go
panic is the `error` case of `Except Panic`.
-/

namespace Provider

/-! ## Byte strings -/

/-- The bytes of an ASCII literal. -/
def ascii (s : String) : List Nat := s.toList.map Char.toNat

/-- Every element is a byte. -/
def IsBytes (bs : List Nat) : Prop := ∀ b ∈ bs, b < 256

instance (bs : List Nat) : Decidable (IsBytes bs) := by
  unfold IsBytes; infer_instance

/-- Big-endian value of a byte string. -/
def beNat (bs : List Nat) : Nat := bs.foldl (fun acc b => acc * 256 + b) 0

/-- The `w` low bytes of `n`, most significant first. -/
def beBytes : Nat → Nat → List Nat
  | 0, _ => []
  | w + 1, n => beBytes w (n / 256) ++ [n % 256]

/-- Little-endian value of a byte string. -/
def leNat : List Nat → Nat
  | [] => 0
  | b :: bs => b + 256 * leNat bs

/-- The `w` low bytes of `n`, least significant first. -/
def leBytes : Nat → Nat → List Nat
  | 0, _ => []
  | w + 1, n => (n % 256) :: leBytes w (n / 256)

/-- Consecutive pieces of `n` elements; `fuel` bounds the number of pieces. -/
def chunks (n : Nat) : Nat → List Nat → List (List Nat)
  | 0, _ => []
  | fuel + 1, xs => if xs.isEmpty then [] else xs.take n :: chunks n fuel (xs.drop n)

/-! ## SHA-2 (FIPS 180-4): `crypto/sha512` and `crypto/sha256` -/

namespace Sha2

/-- The parameters in which SHA-512 and SHA-256 differ. -/
structure Variant where
  /-- Word size in bits. -/
  w : Nat
  /-- Round constants. -/
  K : List Nat
  /-- Initial hash value. -/
  H0 : List Nat
  /-- Rotation amounts of the upper-case sigma 0. -/
  S0 : Nat × Nat × Nat
  /-- Rotation amounts of the upper-case sigma 1. -/
  S1 : Nat × Nat × Nat
  /-- Rotation, rotation, shift of the lower-case sigma 0. -/
  s0 : Nat × Nat × Nat
  /-- Rotation, rotation, shift of the lower-case sigma 1. -/
  s1 : Nat × Nat × Nat

def K512 : List Nat := [
   0x428a2f98d728ae22, 0x7137449123ef65cd, 0xb5c0fbcfec4d3b2f, 0xe9b5dba58189dbbc,
   0x3956c25bf348b538, 0x59f111f1b605d019, 0x923f82a4af194f9b, 0xab1c5ed5da6d8118,
   0xd807aa98a3030242, 0x12835b0145706fbe, 0x243185be4ee4b28c, 0x550c7dc3d5ffb4e2,
   0x72be5d74f27b896f, 0x80deb1fe3b1696b1, 0x9bdc06a725c71235, 0xc19bf174cf692694,
   0xe49b69c19ef14ad2, 0xefbe4786384f25e3, 0x0fc19dc68b8cd5b5, 0x240ca1cc77ac9c65,
   0x2de92c6f592b0275, 0x4a7484aa6ea6e483, 0x5cb0a9dcbd41fbd4, 0x76f988da831153b5,
   0x983e5152ee66dfab, 0xa831c66d2db43210, 0xb00327c898fb213f, 0xbf597fc7beef0ee4,
   0xc6e00bf33da88fc2, 0xd5a79147930aa725, 0x06ca6351e003826f, 0x142929670a0e6e70,
   0x27b70a8546d22ffc, 0x2e1b21385c26c926, 0x4d2c6dfc5ac42aed, 0x53380d139d95b3df,
   0x650a73548baf63de, 0x766a0abb3c77b2a8, 0x81c2c92e47edaee6, 0x92722c851482353b,
   0xa2bfe8a14cf10364, 0xa81a664bbc423001, 0xc24b8b70d0f89791, 0xc76c51a30654be30,
   0xd192e819d6ef5218, 0xd69906245565a910, 0xf40e35855771202a, 0x106aa07032bbd1b8,
   0x19a4c116b8d2d0c8, 0x1e376c085141ab53, 0x2748774cdf8eeb99, 0x34b0bcb5e19b48a8,
   0x391c0cb3c5c95a63, 0x4ed8aa4ae3418acb, 0x5b9cca4f7763e373, 0x682e6ff3d6b2b8a3,
   0x748f82ee5defb2fc, 0x78a5636f43172f60, 0x84c87814a1f0ab72, 0x8cc702081a6439ec,
   0x90befffa23631e28, 0xa4506cebde82bde9, 0xbef9a3f7b2c67915, 0xc67178f2e372532b,
   0xca273eceea26619c, 0xd186b8c721c0c207, 0xeada7dd6cde0eb1e, 0xf57d4f7fee6ed178,
   0x06f067aa72176fba, 0x0a637dc5a2c898a6, 0x113f9804bef90dae, 0x1b710b35131c471b,
   0x28db77f523047d84, 0x32caab7b40c72493, 0x3c9ebe0a15c9bebc, 0x431d67c49c100d4c,
   0x4cc5d4becb3e42b6, 0x597f299cfc657e2a, 0x5fcb6fab3ad6faec, 0x6c44198c4a475817]

def H512 : List Nat := [
   0x6a09e667f3bcc908, 0xbb67ae8584caa73b, 0x3c6ef372fe94f82b, 0xa54ff53a5f1d36f1,
   0x510e527fade682d1, 0x9b05688c2b3e6c1f, 0x1f83d9abfb41bd6b, 0x5be0cd19137e2179]

def K256 : List Nat := [
   0x428a2f98, 0x71374491, 0xb5c0fbcf, 0xe9b5dba5, 0x3956c25b, 0x59f111f1, 0x923f82a4, 0xab1c5ed5,
   0xd807aa98, 0x12835b01, 0x243185be, 0x550c7dc3, 0x72be5d74, 0x80deb1fe, 0x9bdc06a7, 0xc19bf174,
   0xe49b69c1, 0xefbe4786, 0x0fc19dc6, 0x240ca1cc, 0x2de92c6f, 0x4a7484aa, 0x5cb0a9dc, 0x76f988da,
   0x983e5152, 0xa831c66d, 0xb00327c8, 0xbf597fc7, 0xc6e00bf3, 0xd5a79147, 0x06ca6351, 0x14292967,
   0x27b70a85, 0x2e1b2138, 0x4d2c6dfc, 0x53380d13, 0x650a7354, 0x766a0abb, 0x81c2c92e, 0x92722c85,
   0xa2bfe8a1, 0xa81a664b, 0xc24b8b70, 0xc76c51a3, 0xd192e819, 0xd6990624, 0xf40e3585, 0x106aa070,
   0x19a4c116, 0x1e376c08, 0x2748774c, 0x34b0bcb5, 0x391c0cb3, 0x4ed8aa4a, 0x5b9cca4f, 0x682e6ff3,
   0x748f82ee, 0x78a5636f, 0x84c87814, 0x8cc70208, 0x90befffa, 0xa4506ceb, 0xbef9a3f7, 0xc67178f2]

def H256 : List Nat := [
   0x6a09e667, 0xbb67ae85, 0x3c6ef372, 0xa54ff53a, 0x510e527f, 0x9b05688c, 0x1f83d9ab, 0x5be0cd19]

def sha512Variant : Variant :=
  ⟨64, K512, H512, (28, 34, 39), (14, 18, 41), (1, 8, 7), (19, 61, 6)⟩

def sha256Variant : Variant :=
  ⟨32, K256, H256, (2, 13, 22), (6, 11, 25), (7, 18, 3), (17, 19, 10)⟩

/-- Rotate the `w`-bit word `x` right by `n`. -/
def rotr (w x n : Nat) : Nat := (x >>> n ||| x <<< (w - n)) % 2 ^ w

def bigSigma (w : Nat) (r : Nat × Nat × Nat) (x : Nat) : Nat :=
  rotr w x r.1 ^^^ rotr w x r.2.1 ^^^ rotr w x r.2.2

def smallSigma (w : Nat) (r : Nat × Nat × Nat) (x : Nat) : Nat :=
  rotr w x r.1 ^^^ rotr w x r.2.1 ^^^ (x >>> r.2.2)

def ch (w x y z : Nat) : Nat := (x &&& y) ^^^ ((x ^^^ (2 ^ w - 1)) &&& z)

def maj (x y z : Nat) : Nat := (x &&& y) ^^^ (x &&& z) ^^^ (y &&& z)

/-- Padding: a one bit, zero bits, and the bit length in a field of two words. -/
def pad (v : Variant) (msg : List Nat) : List Nat :=
  let block := 2 * v.w
  let lenField := v.w / 4
  let k := (block - (msg.length + 1 + lenField) % block) % block
  msg ++ [0x80] ++ List.replicate k 0 ++ beBytes lenField (msg.length * 8)

/-- Extends the message schedule by `n` words; the list holds the most recent
word first. -/
def schedule (v : Variant) : Nat → List Nat → List Nat
  | 0, ws => ws
  | n + 1, ws =>
    schedule v n
      (((smallSigma v.w v.s1 (ws.getD 1 0) + ws.getD 6 0
          + smallSigma v.w v.s0 (ws.getD 14 0) + ws.getD 15 0) % 2 ^ v.w) :: ws)

/-- The eight working variables. -/
structure Vars where
  a : Nat
  b : Nat
  c : Nat
  d : Nat
  e : Nat
  f : Nat
  g : Nat
  h : Nat
deriving DecidableEq

def round (v : Variant) (s : Vars) (kw : Nat × Nat) : Vars :=
  let t1 := (s.h + bigSigma v.w v.S1 s.e + ch v.w s.e s.f s.g + kw.1 + kw.2) % 2 ^ v.w
  let t2 := (bigSigma v.w v.S0 s.a + maj s.a s.b s.c) % 2 ^ v.w
  ⟨(t1 + t2) % 2 ^ v.w, s.a, s.b, s.c, (s.d + t1) % 2 ^ v.w, s.e, s.f, s.g⟩

/-- Processes one block of sixteen words. -/
def compress (v : Variant) (s : Vars) (block : List Nat) : Vars :=
  let w16 := (chunks (v.w / 8) 16 block).map beNat
  let ws := (schedule v (v.K.length - 16) w16.reverse).reverse
  let r := (v.K.zip ws).foldl (round v) s
  ⟨(s.a + r.a) % 2 ^ v.w, (s.b + r.b) % 2 ^ v.w, (s.c + r.c) % 2 ^ v.w, (s.d + r.d) % 2 ^ v.w,
   (s.e + r.e) % 2 ^ v.w, (s.f + r.f) % 2 ^ v.w, (s.g + r.g) % 2 ^ v.w, (s.h + r.h) % 2 ^ v.w⟩

/-- The digest of `msg`, eight words in big-endian bytes. -/
def digest (v : Variant) (msg : List Nat) : List Nat :=
  let p := pad v msg
  let s0 : Vars := ⟨v.H0.getD 0 0, v.H0.getD 1 0, v.H0.getD 2 0, v.H0.getD 3 0,
                    v.H0.getD 4 0, v.H0.getD 5 0, v.H0.getD 6 0, v.H0.getD 7 0⟩
  let r := (chunks (2 * v.w) (p.length / (2 * v.w)) p).foldl (compress v) s0
  [r.a, r.b, r.c, r.d, r.e, r.f, r.g, r.h].flatMap (beBytes (v.w / 8))

/-- The function `sha512.Sum512`. -/
def Sum512 (data : List Nat) : List Nat := digest sha512Variant data

/-- The function `sha256.Sum256`. -/
def Sum256 (data : List Nat) : List Nat := digest sha256Variant data

end Sha2

/-! ## Ed25519 (RFC 8032): `crypto/ed25519` -/

namespace Ed25519

/-- The field prime. -/
def p : Nat := 2 ^ 255 - 19

/-- The curve constant `d = -121665/121666`. -/
def d : Nat := 37095705934669439343138083508754565189542113879843219016388785533085940283555

/-- The power `b ^ e` modulo `m`, by squaring; `fuel` bounds the bits of `e`. -/
def powMod (m : Nat) : Nat → Nat → Nat → Nat
  | 0, _, _ => 1
  | fuel + 1, b, e =>
    if e = 0 then 1
    else
      let h := powMod m fuel (b * b % m) (e / 2)
      if e % 2 = 1 then h * b % m else h

/-- Inverse in the field, `x ^ (p - 2)`. -/
def inv (x : Nat) : Nat := powMod p 255 (x % p) (p - 2)

/-- A point in extended homogeneous coordinates: `x = X/Z`, `y = Y/Z`,
`x * y = T/Z`. -/
structure Point where
  X : Nat
  Y : Nat
  Z : Nat
  T : Nat
deriving DecidableEq

/-- The neutral element. -/
def Point.zero : Point := ⟨0, 1, 1, 0⟩

/-- The base point. -/
def B : Point :=
  let x := 15112221349535400772501151409588531511454012693041857206046113283949847762202
  let y := 46316835694926478169428394003475163141307993866256225615783033603165251855960
  ⟨x, y, 1, x * y % p⟩

/-- Point addition (RFC 8032, section 5.1.4). -/
def Point.add (P Q : Point) : Point :=
  let A := (P.Y + p - P.X) * (Q.Y + p - Q.X) % p
  let B := (P.Y + P.X) * (Q.Y + Q.X) % p
  let C := P.T * 2 * d * Q.T % p
  let D := P.Z * 2 * Q.Z % p
  let E := (B + p - A) % p
  let F := (D + p - C) % p
  let G := (D + C) % p
  let H := (B + A) % p
  ⟨E * F % p, G * H % p, F * G % p, E * H % p⟩

/-- Double-and-add: `Q + s * P`; `fuel` bounds the bits of `s`. -/
def mulAcc : Nat → Nat → Point → Point → Point
  | 0, _, Q, _ => Q
  | fuel + 1, s, Q, P =>
    if s = 0 then Q
    else mulAcc fuel (s / 2) (if s % 2 = 1 then Q.add P else Q) (P.add P)

/-- Scalar multiplication of `P` by a scalar below `2 ^ 256`. -/
def Point.mul (s : Nat) (P : Point) : Point := mulAcc 256 s Point.zero P

/-- The 32-byte encoding of a point: `y` little-endian, the low bit of `x` in
the top bit. -/
def Point.Bytes (P : Point) : List Nat :=
  let zinv := inv P.Z
  let x := P.X * zinv % p
  let y := P.Y * zinv % p
  leBytes 32 (y ||| (x &&& 1) <<< 255)

/-- The secret scalar of a hash prefix: the lowest three bits and the highest
bit of the 32 bytes cleared, the second-highest bit set. -/
def clamp (h : List Nat) : Nat := (leNat h &&& (2 ^ 254 - 8)) ||| 2 ^ 254

/-- The public key of a seed (RFC 8032, section 5.1.5). -/
def publicKey (seed : List Nat) : List Nat :=
  let h := Sha2.Sum512 seed
  (B.mul (clamp (h.take 32))).Bytes

def SeedSize : Nat := 32

def PublicKeySize : Nat := 32

def PrivateKeySize : Nat := 64

end Ed25519

/-! ## Base64: `encoding/base64`, `StdEncoding` -/

namespace Base64

/-- The alphabet of `StdEncoding`. -/
def encodeStd : List Nat :=
  ascii "ABCDEFGHIJKLMNOPQRSTUVWXYZabcdefghijklmnopqrstuvwxyz0123456789+/"

/-- The padding character `StdPadding`, an equals sign. -/
def StdPadding : Nat := 61

/-- The table `enc.encode`. -/
def encode (v : Nat) : Nat := encodeStd.getD v 0

/-- The table `enc.decodeMap`: the six bits an alphabet character stands for;
`none` where Go's table holds `0xff`. -/
def decodeMap (c : Nat) : Option Nat :=
  if encodeStd.indexOf c < 64 then some (encodeStd.indexOf c) else none

/-- The error `CorruptInputError`.  Go's value carries the offset of the bad
byte; `Read` only tests the error against `nil`, so the offset is left out. -/
inductive CorruptInputError where
  | corrupt
deriving DecidableEq

/-- The method `EncodeToString` of `StdEncoding`: three bytes become four
characters, a last group of one or two bytes is padded. -/
def EncodeToString : List Nat → List Nat
  | a :: b :: c :: rest =>
    let val := a <<< 16 ||| b <<< 8 ||| c
    encode (val >>> 18 &&& 0x3F) :: encode (val >>> 12 &&& 0x3F)
      :: encode (val >>> 6 &&& 0x3F) :: encode (val &&& 0x3F) :: EncodeToString rest
  | [a, b] =>
    let val := a <<< 16 ||| b <<< 8
    [encode (val >>> 18 &&& 0x3F), encode (val >>> 12 &&& 0x3F),
     encode (val >>> 6 &&& 0x3F), StdPadding]
  | [a] =>
    let val := a <<< 16
    [encode (val >>> 18 &&& 0x3F), encode (val >>> 12 &&& 0x3F), StdPadding, StdPadding]
  | [] => []

/-- The loop "skip over newlines" of `decodeQuantum`. -/
def skipNewlines : List Nat → List Nat
  | [] => []
  | c :: rest => if c = 10 ∨ c = 13 then skipNewlines rest else c :: rest

/-- The end of `decodeQuantum`: the characters read, six bits each, are joined
and the first `dlen - 1` of the three bytes are the output. -/
def quantumBytes (dbuf : List Nat) : List Nat :=
  let val := dbuf.getD 0 0 <<< 18 ||| dbuf.getD 1 0 <<< 12 ||| dbuf.getD 2 0 <<< 6
              ||| dbuf.getD 3 0
  [(val >>> 16) % 256, (val >>> 8) % 256, val % 256].take (dbuf.length - 1)

/-- The loop of `Decode` around `decodeQuantum`, as one pass over the
input.  `dbuf` holds the characters of the current quantum read so far (its
length is Go's `j`), `out` is `dst[:n]`.  Line feeds and carriage returns are
skipped wherever they stand; the word-at-a-time fast paths of `Decode` decode
the same quanta and are not modelled apart. -/
def decode (dbuf out : List Nat) : List Nat → Except CorruptInputError (List Nat)
  | [] => if dbuf.length = 0 then .ok out else .error .corrupt
  | c :: rest =>
    match decodeMap c with
    | some v =>
      if dbuf.length = 3 then decode [] (out ++ quantumBytes (dbuf ++ [v])) rest
      else decode (dbuf ++ [v]) out rest
    | none =>
      if c = 10 ∨ c = 13 then decode dbuf out rest
      else if c ≠ StdPadding then .error .corrupt
      else
        -- We've reached the end and there's padding
        match dbuf.length with
        | 0 => .error .corrupt
        | 1 => .error .corrupt
        | 2 =>
          -- "==" is expected, the first "=" is already consumed.
          match skipNewlines rest with
          | [] => .error .corrupt
          | c2 :: rest2 =>
            if c2 ≠ StdPadding then .error .corrupt
            else if skipNewlines rest2 ≠ [] then .error .corrupt
            else .ok (out ++ quantumBytes dbuf)
        | _ =>
          if skipNewlines rest ≠ [] then .error .corrupt
          else .ok (out ++ quantumBytes dbuf)

/-- The method `DecodeString` of `StdEncoding`. -/
def DecodeString (s : List Nat) : Except CorruptInputError (List Nat) := decode [] [] s

end Base64

/-! ## Unsigned varints: `go-varint`, `encoding/binary` -/

namespace Varint

/-- The function `PutUvarint` for a 64-bit value: seven bits a byte, low
groups first, the top bit set on all but the last byte. -/
def putAux : Nat → Nat → List Nat
  | 0, x => [x % 128]
  | fuel + 1, x => if x < 0x80 then [x] else (x % 256 ||| 0x80) :: putAux fuel (x >>> 7)

def PutUvarint (x : Nat) : List Nat := putAux 9 (x % 2 ^ 64)

/-- The function `FromUvarint`: the value and the bytes after it; `none` when
the input ends inside the varint, runs past nine bytes or is not minimal. -/
def fromAux : Nat → Nat → Nat → List Nat → Option (Nat × List Nat)
  | _, _, _, [] => none
  | 0, _, _, _ :: _ => none
  | fuel + 1, acc, shift, b :: rest =>
    if b < 0x80 then
      if b = 0 ∧ shift > 0 then none else some (acc ||| b <<< shift, rest)
    else fromAux fuel (acc ||| (b &&& 0x7F) <<< shift) (shift + 7) rest

def FromUvarint (buf : List Nat) : Option (Nat × List Nat) := fromAux 9 0 0 buf

end Varint

deriving instance DecidableEq for Except

/-- A Go `error` value, named by a short text.  `Read` drops or only tests
the errors it gets, so the exact messages of the libraries are not part of
the model. -/
abbrev GoError := String

/-- The value of a Go panic. -/
structure Panic where
  msg : String
deriving DecidableEq

/-! ## Base58: `mr-tron/base58`, Bitcoin alphabet -/

namespace Base58

/-- The alphabet `BTCAlphabet`. -/
def BTCAlphabet : List Nat :=
  ascii "123456789ABCDEFGHJKLMNPQRSTUVWXYZabcdefghijkmnopqrstuvwxyz"

/-- The character of a digit, `alphabet.encode`. -/
def encodeDigit (v : Nat) : Nat := BTCAlphabet.getD v 0

/-- The digit of a character, `alphabet.decode`; `none` where Go's table
holds `-1`. -/
def decodeDigit (c : Nat) : Option Nat :=
  if BTCAlphabet.indexOf c < 58 then some (BTCAlphabet.indexOf c) else none

/-- The digits of `n` in base 58, least significant first; `fuel` bounds
their number. -/
def digitsLE : Nat → Nat → List Nat
  | 0, _ => []
  | fuel + 1, n => if n = 0 then [] else n % 58 :: digitsLE fuel (n / 58)

/-- The function `Encode`: a `1` for every leading zero byte, then the
big-endian number of the input in base 58.  Two digits a byte are enough,
as 256 is below 58 * 58. -/
def Encode (bin : List Nat) : List Nat :=
  let zcount := (bin.takeWhile (· = 0)).length
  List.replicate zcount (encodeDigit 0)
    ++ ((digitsLE (2 * bin.length) (beNat bin)).reverse.map encodeDigit)

/-- The bytes of `n`, least significant first; `fuel` bounds their number. -/
def bytesLE : Nat → Nat → List Nat
  | 0, _ => []
  | fuel + 1, n => if n = 0 then [] else n % 256 :: bytesLE fuel (n / 256)

/-- The loop of `Decode` over the characters: the number so far times 58 plus
the digit; `none` at a character outside the alphabet. -/
def decodeValue : Nat → List Nat → Option Nat
  | acc, [] => some acc
  | acc, c :: cs =>
    match decodeDigit c with
    | none => none
    | some v => decodeValue (acc * 58 + v) cs

/-- The function `Decode`: a zero byte for every leading `1`, then the bytes
of the number the digits spell; an empty string and a character outside the
alphabet are errors. -/
def Decode (str : List Nat) : Except GoError (List Nat) :=
  if str = [] then .error "zero length string"
  else
    match decodeValue 0 str with
    | none => .error "invalid base58 digit"
    | some n =>
      let zcount := (str.takeWhile (· = encodeDigit 0)).length
      .ok (List.replicate zcount 0 ++ (bytesLE str.length n).reverse)

end Base58

/-! ## Multihash: `go-multihash` -/

namespace Multihash

def IDENTITY : Nat := 0x00

def SHA2_256 : Nat := 0x12

/-- The function `Encode`: the code and the digest length as varints, then the
digest. -/
def Encode (buf : List Nat) (code : Nat) : List Nat :=
  Varint.PutUvarint code ++ Varint.PutUvarint buf.length ++ buf

/-- The function `Sum` with the default length `-1`, for the two hash
functions `peer.IDFromPublicKey` asks for: the identity, whose digest is the
data, and SHA2-256. -/
def Sum (data : List Nat) (code : Nat) : Except GoError (List Nat) :=
  if code = IDENTITY then .ok (Encode data code)
  else if code = SHA2_256 then .ok (Encode (Sha2.Sum256 data) code)
  else .error "invalid multihash code"

/-- The struct `DecodedMultihash`. -/
structure DecodedMultihash where
  Code : Nat
  Length : Nat
  Digest : List Nat
deriving DecidableEq

/-- The function `Decode`: reads the code and the length, and wants exactly
that many bytes after them. -/
def Decode (buf : List Nat) : Except GoError DecodedMultihash :=
  if buf.length < 2 then .error "multihash too short. must be >= 2 bytes"
  else
    match Varint.FromUvarint buf with
    | none => .error "uvarint: bad encoding"
    | some (code, buf1) =>
      match Varint.FromUvarint buf1 with
      | none => .error "uvarint: bad encoding"
      | some (length, buf2) =>
        if length > 2 ^ 31 - 1 then .error "digest too long, supporting only <= 2^31-1"
        else if length > buf2.length then
          .error "length greater than remaining number of bytes in buffer"
        else if buf2.length ≠ length then .error "multihash length inconsistent"
        else .ok ⟨code, length, buf2.take length⟩

end Multihash

/-! ## Keys: go-libp2p `core/crypto` -/

namespace Crypto

/-- The enum `pb.KeyType`. -/
inductive KeyType where
  | RSA
  | Ed25519
  | Secp256k1
  | ECDSA
deriving DecidableEq

/-- The number of a key type on the wire. -/
def KeyType.number : KeyType → Nat
  | .RSA => 0
  | .Ed25519 => 1
  | .Secp256k1 => 2
  | .ECDSA => 3

def KeyType.ofNumber : Nat → Option KeyType
  | 0 => some .RSA
  | 1 => some .Ed25519
  | 2 => some .Secp256k1
  | 3 => some .ECDSA
  | _ => none

/-- A standard-library private key as `KeyPairFromStdKey` receives it, an
interface value.  `Read` only ever builds an Ed25519 key; the RSA, ECDSA and
secp256k1 cases of the type switch are outside this model. -/
inductive StdKey where
  /-- A `*ed25519.PrivateKey`. -/
  | ed25519Ptr (k : List Nat)
  /-- An `ed25519.PrivateKey` passed by value, which no case of the switch
  matches. -/
  | ed25519Val (k : List Nat)
deriving DecidableEq

/-- The libp2p private keys of this model: `Ed25519PrivateKey`. -/
inductive PrivKey where
  | ed25519 (k : List Nat)
deriving DecidableEq

/-- The libp2p public keys of this model: `Ed25519PublicKey`. -/
inductive PubKey where
  | ed25519 (k : List Nat)
deriving DecidableEq

/-- The method `Type`. -/
def PubKey.GetType : PubKey → KeyType
  | .ed25519 _ => .Ed25519

/-- The method `Raw`, which has no error for an Ed25519 key. -/
def PubKey.Raw : PubKey → Except GoError (List Nat)
  | .ed25519 k => .ok k

def ErrNilPrivateKey : GoError := "private key is nil"

def ErrBadKeyType : GoError := "invalid or unsupported key type"

/-- The function `KeyPairFromStdKey`, with its three results; `none` is
`nil`. -/
def KeyPairFromStdKey (priv : Option StdKey) :
    Option PrivKey × Option PubKey × Option GoError :=
  match priv with
  | none => (none, none, some ErrNilPrivateKey)
  | some (.ed25519Ptr p) =>
    -- pub := p.Public(): the last 32 bytes of the private key
    (some (.ed25519 p), some (.ed25519 (p.drop 32)), none)
  | some (.ed25519Val _) => (none, none, some ErrBadKeyType)

/-- The protobuf encoding of `pb.PublicKey`: field 1, the key type, as a
varint; field 2, the key data, length-delimited. -/
def marshalProto (t : KeyType) (data : List Nat) : List Nat :=
  [0x08] ++ Varint.PutUvarint t.number ++ [0x12] ++ Varint.PutUvarint data.length ++ data

/-- The function `MarshalPublicKey`. -/
def MarshalPublicKey (k : PubKey) : Except GoError (List Nat) :=
  match k.Raw with
  | .error e => .error e
  | .ok data => .ok (marshalProto k.GetType data)

/-- The function `protowire.ConsumeVarint`: the value and the bytes after it,
seven bits a byte, low groups first, ten bytes at most; `none` when the input
ends inside the varint or the tenth byte carries more than the one bit that
still fits 64 bits. -/
def protoVarint : Nat → Nat → Nat → List Nat → Option (Nat × List Nat)
  | _, _, _, [] => none
  | 0, _, _, _ :: _ => none
  | fuel + 1, acc, shift, b :: rest =>
    if shift = 63 then
      if b < 2 then some (acc ||| b <<< 63, rest) else none
    else if b < 0x80 then some (acc ||| b <<< shift, rest)
    else protoVarint fuel (acc ||| (b &&& 0x7F) <<< shift) (shift + 7) rest

/-- The fields of `pb.PublicKey` read so far.  `KeyType` holds the 32 bits of
the enum value. -/
structure PublicKeyProto where
  KeyType : Option Nat
  Data : Option (List Nat)
deriving DecidableEq

/-- The error of `proto.Unmarshal` on bytes that are no message. -/
def errDecode : GoError := "proto: cannot parse invalid wire-format data"

/-- The function `proto.Unmarshal` into a `pb.PublicKey`.  Field 1 as a varint
is the key type, cut to the 32 bits of the enum, and field 2 as bytes is the
data, the last one read winning; any other field is skipped by its wire
type.  `groups` holds the numbers of the groups that are open, innermost
first: a group is skipped with all it holds, up to the end-group tag of its
number.  A field number is at least 1 and at most `2 ^ 29 - 1`, inside a
skipped group at most `2 ^ 31 - 1`.  The limit of the library on the depth of
groups is not part of the model. -/
def unmarshalFields :
    Nat → List Nat → PublicKeyProto → List Nat → Except GoError PublicKeyProto
  | _, groups, m, [] => if groups = [] then .ok m else .error errDecode
  | 0, _, _, _ :: _ => .error errDecode
  | fuel + 1, groups, m, b :: rest =>
    match protoVarint 10 0 0 (b :: rest) with
    | none => .error errDecode
    | some (tag, r1) =>
      if tag / 8 = 0 ∨ tag / 8 > (if groups = [] then 2 ^ 29 - 1 else 2 ^ 31 - 1) then
        .error errDecode
      else if tag % 8 = 3 then unmarshalFields fuel (tag / 8 :: groups) m r1
      else if tag % 8 = 4 then
        match groups with
        | g :: gs => if g = tag / 8 then unmarshalFields fuel gs m r1 else .error errDecode
        | [] => .error errDecode
      else if tag % 8 = 0 then
        match protoVarint 10 0 0 r1 with
        | none => .error errDecode
        | some (v, r2) =>
          unmarshalFields fuel groups
            (if groups = [] ∧ tag / 8 = 1 then { m with KeyType := some (v % 2 ^ 32) } else m) r2
      else if tag % 8 = 2 then
        match protoVarint 10 0 0 r1 with
        | none => .error errDecode
        | some (n, r2) =>
          if r2.length < n then .error errDecode
          else
            unmarshalFields fuel groups
              (if groups = [] ∧ tag / 8 = 2 then { m with Data := some (r2.take n) } else m)
              (r2.drop n)
      else if tag % 8 = 1 then
        if r1.length < 8 then .error errDecode
        else unmarshalFields fuel groups m (r1.drop 8)
      else if tag % 8 = 5 then
        if r1.length < 4 then .error errDecode
        else unmarshalFields fuel groups m (r1.drop 4)
      else .error errDecode

/-- The function `UnmarshalEd25519PublicKey`. -/
def UnmarshalEd25519PublicKey (data : List Nat) : Except GoError PubKey :=
  if data.length ≠ 32 then .error "expect ed25519 public key data size to be 32"
  else .ok (.ed25519 data)

/-- The function `UnmarshalPublicKey`: both fields are required, and the key
type picks the unmarshaller.  Only the Ed25519 one is part of this model: the
RSA, secp256k1 and ECDSA keys the library also reads end in an error here. -/
def UnmarshalPublicKey (data : List Nat) : Except GoError PubKey :=
  match unmarshalFields data.length [] ⟨none, none⟩ data with
  | .error e => .error e
  | .ok ⟨some t, some d⟩ =>
    match KeyType.ofNumber t with
    | some .Ed25519 => UnmarshalEd25519PublicKey d
    | _ => .error ErrBadKeyType
  | .ok _ => .error "proto: required field not set"

end Crypto

/-! ## Peer identifiers: go-libp2p `core/peer` -/

namespace Peer

/-- The type `peer.ID`, a Go string holding the bytes of a multihash. -/
abbrev ID := List Nat

def maxInlineKeyLength : Nat := 42

/-- The variable `AdvancedEnableInlining`, which nothing in the provider
changes. -/
def AdvancedEnableInlining : Bool := true

/-- The function `IDFromPublicKey`.  A `nil` key makes the call of `Raw`
panic; the error of `mh.Sum` is dropped as in the source. -/
def IDFromPublicKey (pk : Option Crypto.PubKey) : Except Panic (ID × Option GoError) :=
  match pk with
  | none => .error ⟨"invalid memory address or nil pointer dereference"⟩
  | some k =>
    match Crypto.MarshalPublicKey k with
    | .error e => .ok ([], some e)
    | .ok b =>
      let alg :=
        if AdvancedEnableInlining ∧ b.length ≤ maxInlineKeyLength then Multihash.IDENTITY
        else Multihash.SHA2_256
      match Multihash.Sum b alg with
      | .ok hash => .ok (hash, none)
      | .error _ => .ok ([], none)

/-- The function `IDFromPublicKey` once more, with the value it finds in the
package variable `AdvancedEnableInlining` as the argument `inlining`. -/
def IDFromPublicKeyIn (inlining : Bool) (pk : Option Crypto.PubKey) :
    Except Panic (ID × Option GoError) :=
  match pk with
  | none => .error ⟨"invalid memory address or nil pointer dereference"⟩
  | some k =>
    match Crypto.MarshalPublicKey k with
    | .error e => .ok ([], some e)
    | .ok b =>
      let alg :=
        if inlining ∧ b.length ≤ maxInlineKeyLength then Multihash.IDENTITY
        else Multihash.SHA2_256
      match Multihash.Sum b alg with
      | .ok hash => .ok (hash, none)
      | .error _ => .ok ([], none)

/-- The method `String`: the base58 text of the identifier. -/
def ID.String (id : ID) : List Nat := Base58.Encode id

/-- The error `ErrNoPublicKey`. -/
def ErrNoPublicKey : GoError := "public key is not embedded in peer ID"

/-- The method `ExtractPublicKey`. -/
def ID.ExtractPublicKey (id : ID) : Except GoError Crypto.PubKey :=
  match Multihash.Decode id with
  | .error e => .error e
  | .ok decoded =>
    if decoded.Code ≠ Multihash.IDENTITY then .error ErrNoPublicKey
    else Crypto.UnmarshalPublicKey decoded.Digest

end Peer

/-! ## `crypto/ed25519`: keys from seeds -/

namespace Ed25519

/-- The function `NewKeyFromSeed`: the seed followed by the public key.  It
panics on a seed that is not 32 bytes long. -/
def NewKeyFromSeed (seed : List Nat) : Except Panic (List Nat) :=
  if seed.length ≠ SeedSize then
    .error ⟨"ed25519: bad seed length: " ++ toString seed.length⟩
  else .ok (seed ++ publicKey seed)

end Ed25519

/-! ## The plugin framework: diagnostics, values, state -/

/-- The type `diag.Severity`. -/
inductive Severity where
  | Invalid
  | Error
  | Warning
deriving DecidableEq

/-- A diagnostic of the framework. -/
structure Diagnostic where
  Severity : Severity
  Summary : String
  Detail : String
deriving DecidableEq

/-- The type `diag.Diagnostics`. -/
abbrev Diagnostics := List Diagnostic

/-- The method `HasError`. -/
def HasError (ds : Diagnostics) : Bool := ds.any (fun x => x.Severity = Severity.Error)

/-- The method `Append`, which leaves out a diagnostic the list already
holds. -/
def Append (ds new : Diagnostics) : Diagnostics :=
  new.foldl (fun acc x => if x ∈ acc then acc else acc ++ [x]) ds

/-- The method `AddError`. -/
def AddError (ds : Diagnostics) (summary detail : String) : Diagnostics :=
  Append ds [⟨Severity.Error, summary, detail⟩]

/-- The type `types.String`: null, unknown, or a known Go string. -/
inductive TfString where
  | null
  | unknown
  | value (s : List Nat)
deriving DecidableEq

/-- The function `types.StringValue`. -/
def StringValue (s : List Nat) : TfString := .value s

/-- The method `ValueString`: the known string, or the empty string. -/
def TfString.ValueString : TfString → List Nat
  | .value s => s
  | _ => []

/-- The type `http.Client`, of which the data source keeps a pointer and
reads nothing. -/
structure HttpClient where
  Timeout : Nat
deriving DecidableEq

/-- PeerIdDataSource defines the data source implementation. -/
structure PeerIdDataSource where
  client : Option HttpClient
deriving DecidableEq

/-- PeerIdDataSourceModel describes the data source data model. -/
structure PeerIdDataSourceModel where
  Ed25519SecretKey : TfString
  Base58 : TfString
deriving DecidableEq

/-- The configuration the framework hands to `Read`: a value for each
attribute of the schema. -/
structure Config where
  ed25519_secret_key : TfString
  base58 : TfString
deriving DecidableEq

/-- The method `Config.Get` into a `PeerIdDataSourceModel`: each attribute
goes to the field that carries its `tfsdk` tag.  Both are strings in schema
and model, so the conversion reports nothing. -/
def Config.Get (c : Config) : PeerIdDataSourceModel × Diagnostics :=
  (⟨c.ed25519_secret_key, c.base58⟩, [])

/-- The type `datasource.ReadRequest`. -/
structure ReadRequest where
  Config : Config
deriving DecidableEq

/-- The type `datasource.ReadResponse`.  `State` is `none` until `State.Set`
stores a model. -/
structure ReadResponse where
  State : Option PeerIdDataSourceModel
  Diagnostics : Diagnostics
deriving DecidableEq

/-- The method `State.Set` with a `PeerIdDataSourceModel`, which matches the
schema: the state holds the model and no diagnostic is reported. -/
def StateSet (_old : Option PeerIdDataSourceModel) (data : PeerIdDataSourceModel) :
    Option PeerIdDataSourceModel × Diagnostics :=
  (some data, [])

/-! ## `PeerIdDataSource.Read` -/

/-- The method `Read` of `internal/provider/peer_id.go`.  It returns the
response the caller's pointer refers to afterwards, or the panic. -/
def Read (d : PeerIdDataSource) (req : ReadRequest) (resp : ReadResponse) :
    Except Panic ReadResponse :=
  let _ := d
  -- Read Terraform configuration data into the model
  let (data, diags) := req.Config.Get
  let resp := { resp with Diagnostics := Append resp.Diagnostics diags }
  if HasError resp.Diagnostics then .ok resp
  else
    match Base64.DecodeString data.Ed25519SecretKey.ValueString with
    | .error _ =>
      let diags := AddError resp.Diagnostics "Base64 decode"
        "Failed to base64-decode the provided secret key"
      .ok { resp with Diagnostics := diags }
    | .ok bytes =>
      if bytes.length ≠ 32 then
        let diags := AddError resp.Diagnostics "Invalid secrey key length" "Should be 32"
        .ok { resp with Diagnostics := diags }
      else
        match Ed25519.NewKeyFromSeed bytes with
        | .error e => .error e
        | .ok priv_key =>
          let (_, pub_key, _) := Crypto.KeyPairFromStdKey (some (.ed25519Ptr priv_key))
          match Peer.IDFromPublicKey pub_key with
          | .error e => .error e
          | .ok (peer_id, _) =>
            let data := { data with Base58 := StringValue (Peer.ID.String peer_id) }
            -- tflog.Trace writes a log line and leaves the response alone
            -- Save data into Terraform state
            let (state, diags) := StateSet resp.State data
            .ok { State := state, Diagnostics := Append resp.Diagnostics diags }

/-- A request whose configuration sets `ed25519_secret_key` to a known
string and leaves `base58` out. -/
def request (key : List Nat) : ReadRequest := ⟨⟨.value key, .null⟩⟩

/-- The response as the framework passes it in: no state, no diagnostic. -/
def emptyResponse : ReadResponse := ⟨none, []⟩

/-! ## The state around a call of `Read` -/

/-- The function `NewPeerIdDataSource`: a data source without a client. -/
def NewPeerIdDataSource : PeerIdDataSource := ⟨none⟩

/-- The value of `req.ProviderData` in `Configure`: `nil`, a `*http.Client`,
or a value of another type, given by the name of the type. -/
inductive ProviderData where
  | nil
  | httpClient (c : HttpClient)
  | other (typeName : String)
deriving DecidableEq

/-- The type `datasource.ConfigureResponse`. -/
structure ConfigureResponse where
  Diagnostics : Diagnostics
deriving DecidableEq

/-- The method `Configure` of `internal/provider/peer_id.go`: the data source
and the response afterwards. -/
def Configure (d : PeerIdDataSource) (providerData : ProviderData) (resp : ConfigureResponse) :
    PeerIdDataSource × ConfigureResponse :=
  match providerData with
  -- Prevent panic if the provider has not been configured.
  | .nil => (d, resp)
  | .other typeName =>
    let detail := "Expected *http.Client, got: " ++ typeName
      ++ ". Please report this issue to the provider developers."
    (d, ⟨AddError resp.Diagnostics "Unexpected Data Source Configure Type" detail⟩)
  | .httpClient client => ({ d with client := some client }, resp)

/-- The state outside its arguments that a call of `Read` reads or writes:
the package variable `AdvancedEnableInlining` of go-libp2p `core/peer`, which
`IDFromPublicKey` reads, and the lines written through `tflog`. -/
structure World where
  AdvancedEnableInlining : Bool
  log : List String
deriving DecidableEq

/-- The state when the provider starts: the variable as go-libp2p sets it,
nothing logged. -/
def initialWorld : World := ⟨Peer.AdvancedEnableInlining, []⟩

/-- The method `Read` as a step on the state around it: the outcome as in
`Read`, with the package variable read where `IDFromPublicKey` reads it, and
the state afterwards, in which `tflog.Trace` has added its line. -/
def ReadIn (w : World) (d : PeerIdDataSource) (req : ReadRequest) (resp : ReadResponse) :
    World × Except Panic ReadResponse :=
  let _ := d
  -- Read Terraform configuration data into the model
  let (data, diags) := req.Config.Get
  let resp := { resp with Diagnostics := Append resp.Diagnostics diags }
  if HasError resp.Diagnostics then (w, .ok resp)
  else
    match Base64.DecodeString data.Ed25519SecretKey.ValueString with
    | .error _ =>
      let diags := AddError resp.Diagnostics "Base64 decode"
        "Failed to base64-decode the provided secret key"
      (w, .ok { resp with Diagnostics := diags })
    | .ok bytes =>
      if bytes.length ≠ 32 then
        let diags := AddError resp.Diagnostics "Invalid secrey key length" "Should be 32"
        (w, .ok { resp with Diagnostics := diags })
      else
        match Ed25519.NewKeyFromSeed bytes with
        | .error e => (w, .error e)
        | .ok priv_key =>
          let (_, pub_key, _) := Crypto.KeyPairFromStdKey (some (.ed25519Ptr priv_key))
          match Peer.IDFromPublicKeyIn w.AdvancedEnableInlining pub_key with
          | .error e => (w, .error e)
          | .ok (peer_id, _) =>
            let data := { data with Base58 := StringValue (Peer.ID.String peer_id) }
            -- Write logs using the tflog package
            let w := { w with log := w.log ++ ["read PeerIdDataSource"] }
            -- Save data into Terraform state
            let (state, diags) := StateSet resp.State data
            (w, .ok { State := state, Diagnostics := Append resp.Diagnostics diags })

/-- The states a run of the provider goes through: the initial one, and the
one a call of `Read` leaves.  `Metadata`, `Schema` and `Configure` write
neither the package variable nor a log line. -/
inductive Reachable : World → Prop where
  | initial : Reachable initialWorld
  | read (w : World) (d : PeerIdDataSource) (req : ReadRequest) (resp : ReadResponse) :
      Reachable w → Reachable (ReadIn w d req resp).1

/-! ## The specification's side -/

/-- The peer identifier of a seed in the words of the specification (section
4.1, steps 3 to 6): the Ed25519 public key of the seed; its wire format, the
key-type tag and the raw key bytes; the multihash of that, the identity if it
is at most 42 bytes long and SHA-256 otherwise; the base58 text. -/
def specPeerId (seed : List Nat) : List Nat :=
  let pub := Ed25519.publicKey seed
  let wire := [0x08, 0x01, 0x12, 0x20] ++ pub
  let mh := if wire.length ≤ 42 then [0x00, wire.length] ++ wire
            else [0x12, 0x20] ++ Sha2.Sum256 wire
  Base58.Encode mh

/-- The diagnostic of a failed base64 decoding. -/
def decodeError : Diagnostic :=
  ⟨Severity.Error, "Base64 decode", "Failed to base64-decode the provided secret key"⟩

/-- The diagnostic of a seed of the wrong length. -/
def lengthError : Diagnostic :=
  ⟨Severity.Error, "Invalid secrey key length", "Should be 32"⟩

namespace Base64

/-- A line feed or a carriage return. -/
def isNewline (c : Nat) : Bool := c = 10 ∨ c = 13

/-- The input without its line feeds and carriage returns. -/
def stripNewlines (s : List Nat) : List Nat := s.filter (fun c => !isNewline c)

/-- Standard-alphabet padded base64 (RFC 4648, section 4): characters of the
alphabet, then no, one or two padding characters, a multiple of four
characters in all. -/
def isStdPadded (t : List Nat) : Bool :=
  (t.takeWhile (fun c => c ≠ StdPadding)).all (fun c => c ∈ encodeStd)
    && decide (t.dropWhile (fun c => c ≠ StdPadding)
                ∈ [[], [StdPadding], [StdPadding, StdPadding]])
    && t.length % 4 = 0

end Base64

namespace Base58

/-- The `k` lowest digits of `n` in base 58, least significant first. -/
def lowDigits : Nat → Nat → List Nat
  | 0, _ => []
  | k + 1, n => n % 58 :: lowDigits k (n / 58)

/-- The number in front of the 32 key bytes of an Ed25519 identifier: the
bytes `00 24 08 01 12 20`. -/
def idHead : Nat := 0x2408011220

end Base58

/-! ## The acceptance test -/

/-- The argument of `base64encode` in `testAccExampleDataSourceConfig`. -/
def testAccSeed : List Nat := ascii "00000000000000000000000000000001"

/-- The value of `ed25519_secret_key` in `testAccExampleDataSourceConfig`. -/
def testAccKey : List Nat := Base64.EncodeToString testAccSeed

/-- The identifier `TestAccExampleDataSource` checks `base58` against. -/
def testAccExpected : List Nat := ascii "12D3KooWBnTyEyBVeYpZJobw78rb85nNamrYQR3Tc6gJmfQ76pG4"

/-- The secret key of the first test vector of RFC 8032, section 7.1. -/
def rfc8032Seed : List Nat :=
  [0x9d, 0x61, 0xb1, 0x9d, 0xef, 0xfd, 0x5a, 0x60, 0xba, 0x84, 0x4a, 0xf4, 0x92, 0xec, 0x2c, 0xc4,
   0x44, 0x49, 0xc5, 0x69, 0x7b, 0x32, 0x69, 0x19, 0x70, 0x3b, 0xac, 0x03, 0x1c, 0xae, 0x7f, 0x60]

/-- The public key of the first test vector of RFC 8032, section 7.1. -/
def rfc8032Public : List Nat :=
  [0xd7, 0x5a, 0x98, 0x01, 0x82, 0xb1, 0x0a, 0xb7, 0xd5, 0x4b, 0xfe, 0xd3, 0xc9, 0x64, 0x07, 0x3a,
   0x0e, 0xe1, 0x72, 0xf3, 0xda, 0xa6, 0x23, 0x25, 0xaf, 0x02, 0x1a, 0x68, 0xf7, 0x07, 0x51, 0x1a]

/-! # Theorems -/

/-! ## Lemmas: byte strings -/

theorem leBytes_length (w n : Nat) : (leBytes w n).length = w := by
  induction w generalizing n with
  | zero => rfl
  | succ w ih => simp [leBytes, ih]

theorem leBytes_isBytes (w n : Nat) : IsBytes (leBytes w n) := by
  induction w generalizing n with
  | zero => intro b hb; simp [leBytes] at hb
  | succ w ih =>
    intro b hb
    simp only [leBytes, List.mem_cons] at hb
    rcases hb with rfl | hb
    · exact Nat.mod_lt _ (by decide)
    · exact ih _ b hb

theorem publicKey_length (seed : List Nat) : (Ed25519.publicKey seed).length = 32 := by
  simp [Ed25519.publicKey, Ed25519.Point.Bytes, leBytes_length]

theorem publicKey_isBytes (seed : List Nat) : IsBytes (Ed25519.publicKey seed) := by
  simp only [Ed25519.publicKey, Ed25519.Point.Bytes]
  exact leBytes_isBytes _ _

/-! ## Lemmas: diagnostics -/

theorem not_mem_of_hasError_false (ds : Diagnostics) (x : Diagnostic)
    (h : HasError ds = false) (hx : x.Severity = Severity.Error) : x ∉ ds := by
  intro hmem
  have : HasError ds = true := by
    simp only [HasError, List.any_eq_true]
    exact ⟨x, hmem, by simp [hx]⟩
  simp [h] at this

theorem addError_eq (ds : Diagnostics) (summary detail : String)
    (h : HasError ds = false) :
    AddError ds summary detail = ds ++ [⟨Severity.Error, summary, detail⟩] := by
  have hx := not_mem_of_hasError_false ds ⟨Severity.Error, summary, detail⟩ h rfl
  simp [AddError, Append, hx]

/-! ## Lemmas: base64 -/

namespace Base64

theorem or_shl (a b i : Nat) (h : b < 2 ^ i) : a <<< i ||| b = a * 2 ^ i + b := by
  rw [Nat.shiftLeft_eq, Nat.mul_comm a, ← Nat.mul_add_lt_is_or h]

theorem and_3F (x : Nat) : x &&& 0x3F = x % 64 :=
  Nat.and_pow_two_sub_one_eq_mod x 6

/-- Three bytes packed as `Encode` packs them. -/
theorem pack3 (a b c : Nat) (hb : b < 256) (hc : c < 256) :
    a <<< 16 ||| b <<< 8 ||| c = a * 65536 + b * 256 + c := by
  rw [Nat.or_assoc, or_shl b c 8 (by omega), or_shl a _ 16 (by omega)]
  omega

/-- Four sextets joined as `decodeQuantum` joins them. -/
theorem pack4 (s0 s1 s2 s3 : Nat) (h1 : s1 < 64) (h2 : s2 < 64) (h3 : s3 < 64) :
    s0 <<< 18 ||| s1 <<< 12 ||| s2 <<< 6 ||| s3
      = s0 * 262144 + s1 * 4096 + s2 * 64 + s3 := by
  rw [Nat.or_assoc, Nat.or_assoc, or_shl s2 s3 6 (by omega), or_shl s1 _ 12 (by omega),
    or_shl s0 _ 18 (by omega)]
  omega

theorem decodeMap_encode : ∀ v < 64, decodeMap (encode v) = some v := by decide

theorem decodeMap_padding : decodeMap 61 = none := by decide

/-- A full quantum: four characters of three bytes decode to the bytes. -/
theorem decode_quad (a b c : Nat) (ha : a < 256) (hb : b < 256) (hc : c < 256)
    (out tail : List Nat) :
    decode [] out
        (encode ((a <<< 16 ||| b <<< 8 ||| c) >>> 18 &&& 0x3F)
          :: encode ((a <<< 16 ||| b <<< 8 ||| c) >>> 12 &&& 0x3F)
          :: encode ((a <<< 16 ||| b <<< 8 ||| c) >>> 6 &&& 0x3F)
          :: encode ((a <<< 16 ||| b <<< 8 ||| c) &&& 0x3F) :: tail)
      = decode [] (out ++ [a, b, c]) tail := by
  rw [pack3 a b c hb hc]
  simp only [and_3F]
  have k0 : (a * 65536 + b * 256 + c) >>> 18 % 64 < 64 := Nat.mod_lt _ (by decide)
  have k1 : (a * 65536 + b * 256 + c) >>> 12 % 64 < 64 := Nat.mod_lt _ (by decide)
  have k2 : (a * 65536 + b * 256 + c) >>> 6 % 64 < 64 := Nat.mod_lt _ (by decide)
  have k3 : (a * 65536 + b * 256 + c) % 64 < 64 := Nat.mod_lt _ (by decide)
  have q : quantumBytes [(a * 65536 + b * 256 + c) >>> 18 % 64,
      (a * 65536 + b * 256 + c) >>> 12 % 64, (a * 65536 + b * 256 + c) >>> 6 % 64,
      (a * 65536 + b * 256 + c) % 64] = [a, b, c] := by
    simp only [quantumBytes, List.getD_cons_zero, List.getD_cons_succ, List.length_cons,
      List.length_nil]
    rw [pack4 _ _ _ _ k1 k2 k3]
    simp only [Nat.shiftRight_eq_div_pow]
    have e1 : ((a * 65536 + b * 256 + c) / 2 ^ 18 % 64 * 262144
                + (a * 65536 + b * 256 + c) / 2 ^ 12 % 64 * 4096
                + (a * 65536 + b * 256 + c) / 2 ^ 6 % 64 * 64
                + (a * 65536 + b * 256 + c) % 64) = a * 65536 + b * 256 + c := by omega
    rw [e1]
    have e2 : (a * 65536 + b * 256 + c) / 2 ^ 16 % 256 = a := by omega
    have e3 : (a * 65536 + b * 256 + c) / 2 ^ 8 % 256 = b := by omega
    have e4 : (a * 65536 + b * 256 + c) % 256 = c := by omega
    rw [e2, e3, e4]
    rfl
  simp [decode, decodeMap_encode _ k0, decodeMap_encode _ k1, decodeMap_encode _ k2,
    decodeMap_encode _ k3, q]

/-- A last group of two bytes: three characters and one padding character. -/
theorem decode_pad1 (a b : Nat) (ha : a < 256) (hb : b < 256) (out : List Nat) :
    decode [] out
        [encode ((a <<< 16 ||| b <<< 8) >>> 18 &&& 0x3F),
         encode ((a <<< 16 ||| b <<< 8) >>> 12 &&& 0x3F),
         encode ((a <<< 16 ||| b <<< 8) >>> 6 &&& 0x3F), StdPadding]
      = .ok (out ++ [a, b]) := by
  have hv : a <<< 16 ||| b <<< 8 = a * 65536 + b * 256 := by
    rw [Nat.shiftLeft_eq b, or_shl a _ 16 (by omega)]
    omega
  rw [hv]
  simp only [and_3F]
  have k0 : (a * 65536 + b * 256) >>> 18 % 64 < 64 := Nat.mod_lt _ (by decide)
  have k1 : (a * 65536 + b * 256) >>> 12 % 64 < 64 := Nat.mod_lt _ (by decide)
  have k2 : (a * 65536 + b * 256) >>> 6 % 64 < 64 := Nat.mod_lt _ (by decide)
  have q : quantumBytes [(a * 65536 + b * 256) >>> 18 % 64,
      (a * 65536 + b * 256) >>> 12 % 64, (a * 65536 + b * 256) >>> 6 % 64] = [a, b] := by
    simp only [quantumBytes, List.getD_cons_zero, List.getD_cons_succ, List.length_cons,
      List.length_nil, List.getD_nil]
    rw [pack4 _ _ _ _ k1 k2 (by decide)]
    simp only [Nat.shiftRight_eq_div_pow]
    have e1 : ((a * 65536 + b * 256) / 2 ^ 18 % 64 * 262144
                + (a * 65536 + b * 256) / 2 ^ 12 % 64 * 4096
                + (a * 65536 + b * 256) / 2 ^ 6 % 64 * 64 + 0) = a * 65536 + b * 256 := by omega
    rw [e1]
    have e2 : (a * 65536 + b * 256) / 2 ^ 16 % 256 = a := by omega
    have e3 : (a * 65536 + b * 256) / 2 ^ 8 % 256 = b := by omega
    rw [e2, e3]
    rfl
  simp [decode, decodeMap_encode _ k0, decodeMap_encode _ k1, decodeMap_encode _ k2,
    decodeMap_padding, StdPadding, skipNewlines, q]

/-- A last group of one byte: two characters and two padding characters. -/
theorem decode_pad2 (a : Nat) (ha : a < 256) (out : List Nat) :
    decode [] out
        [encode ((a <<< 16) >>> 18 &&& 0x3F), encode ((a <<< 16) >>> 12 &&& 0x3F),
         StdPadding, StdPadding]
      = .ok (out ++ [a]) := by
  have hv : a <<< 16 = a * 65536 := by omega
  rw [hv]
  simp only [and_3F]
  have k0 : (a * 65536) >>> 18 % 64 < 64 := Nat.mod_lt _ (by decide)
  have k1 : (a * 65536) >>> 12 % 64 < 64 := Nat.mod_lt _ (by decide)
  have q : quantumBytes [(a * 65536) >>> 18 % 64, (a * 65536) >>> 12 % 64] = [a] := by
    simp only [quantumBytes, List.getD_cons_zero, List.getD_cons_succ, List.length_cons,
      List.length_nil, List.getD_nil]
    rw [pack4 _ _ _ _ k1 (by decide) (by decide)]
    simp only [Nat.shiftRight_eq_div_pow]
    have e2 : ((a * 65536) / 2 ^ 18 % 64 * 262144 + (a * 65536) / 2 ^ 12 % 64 * 4096
                + 0 * 64 + 0) / 2 ^ 16 % 256 = a := by omega
    rw [e2]
    rfl
  simp [decode, decodeMap_encode _ k0, decodeMap_encode _ k1,
    decodeMap_padding, StdPadding, skipNewlines, q]

/-- Decoding what `EncodeToString` wrote gives the bytes back. -/
theorem decode_encodeToString (s : List Nat) (hs : IsBytes s) (out : List Nat) :
    decode [] out (EncodeToString s) = .ok (out ++ s) := by
  induction s using EncodeToString.induct generalizing out with
  | case1 a b c rest ih =>
    have ha : a < 256 := hs a (by simp)
    have hb : b < 256 := hs b (by simp)
    have hc : c < 256 := hs c (by simp)
    have hr : IsBytes rest := fun x hx => hs x (by simp [hx])
    rw [EncodeToString, decode_quad a b c ha hb hc, ih hr]
    simp
  | case2 a b =>
    rw [EncodeToString]
    exact decode_pad1 a b (hs a (by simp)) (hs b (by simp)) out
  | case3 a =>
    rw [EncodeToString]
    exact decode_pad2 a (hs a (by simp)) out
  | case4 => simp [EncodeToString, decode]

theorem decodeString_encodeToString (s : List Nat) (hs : IsBytes s) :
    DecodeString (EncodeToString s) = .ok s := by
  simpa [DecodeString] using decode_encodeToString s hs []

theorem stripNewlines_skipNewlines (s : List Nat) :
    stripNewlines (skipNewlines s) = stripNewlines s := by
  induction s with
  | nil => rfl
  | cons c rest ih =>
    by_cases hc : c = 10 ∨ c = 13
    · have e1 : skipNewlines (c :: rest) = skipNewlines rest := by simp [skipNewlines, hc]
      have e2 : stripNewlines (c :: rest) = stripNewlines rest := by
        rcases hc with rfl | rfl <;> simp [stripNewlines, isNewline]
      rw [e1, e2, ih]
    · simp [skipNewlines, hc]

theorem stripNewlines_of_skip_nil (s : List Nat) (h : skipNewlines s = []) :
    stripNewlines s = [] := by
  rw [← stripNewlines_skipNewlines, h]; rfl

theorem mem_of_decodeMap (c v : Nat) (h : decodeMap c = some v) : c ∈ encodeStd := by
  unfold decodeMap at h
  split at h
  · next hlt => exact List.indexOf_lt_length.mp hlt
  · cases h

theorem encodeStd_plain : ∀ c ∈ encodeStd, c ≠ 61 ∧ c ≠ 10 ∧ c ≠ 13 := by decide

/-- What `decode` accepts is, without its newlines, well-formed: the rest of
the input completes the quantum of which `dbuf` holds the start. -/
theorem wellFormed_of_decode (s : List Nat) :
    ∀ (dbuf out bs : List Nat), dbuf.length ≤ 3 → decode dbuf out s = .ok bs →
      ((stripNewlines s).takeWhile (fun c => c ≠ StdPadding)).all (fun c => c ∈ encodeStd) = true
      ∧ (stripNewlines s).dropWhile (fun c => c ≠ StdPadding)
          ∈ [[], [StdPadding], [StdPadding, StdPadding]]
      ∧ (dbuf.length + (stripNewlines s).length) % 4 = 0 := by
  induction s with
  | nil =>
    intro dbuf out bs _ h
    simp only [decode] at h
    split at h
    · next h0 => simp [stripNewlines, h0]
    · cases h
  | cons c rest ih =>
    intro dbuf out bs hlen h
    simp only [decode] at h
    split at h
    · next v hv =>
      have hmem := mem_of_decodeMap c v hv
      obtain ⟨h61, h10, h13⟩ := encodeStd_plain c hmem
      have hstrip : stripNewlines (c :: rest) = c :: stripNewlines rest := by
        simp [stripNewlines, isNewline, h10, h13]
      rw [hstrip]
      split at h
      · next h3 =>
        obtain ⟨i1, i2, i3⟩ := ih [] _ bs (by simp) h
        refine ⟨?_, ?_, ?_⟩
        · simpa [StdPadding, h61, hmem] using i1
        · simpa [StdPadding, h61] using i2
        · simp only [List.length_nil, Nat.zero_add] at i3
          simp only [List.length_cons]; omega
      · next h3 =>
        obtain ⟨i1, i2, i3⟩ := ih (dbuf ++ [v]) out bs (by simp; omega) h
        refine ⟨?_, ?_, ?_⟩
        · simpa [StdPadding, h61, hmem] using i1
        · simpa [StdPadding, h61] using i2
        · simp only [List.length_append, List.length_cons, List.length_nil] at i3
          simp only [List.length_cons]; omega
    · next hnone =>
      split at h
      · next hnl =>
        have hstrip : stripNewlines (c :: rest) = stripNewlines rest := by
          rcases hnl with rfl | rfl <;> simp [stripNewlines, isNewline]
        rw [hstrip]
        exact ih dbuf out bs hlen h
      · next hnl =>
        split at h
        · cases h
        · next hpad =>
          have hc : c = StdPadding := by simpa using hpad
          have hstrip : stripNewlines (c :: rest) = c :: stripNewlines rest := by
            simp only [not_or] at hnl
            simp [stripNewlines, isNewline, hnl.1, hnl.2]
          rw [hstrip]
          split at h
          · cases h
          · cases h
          · next h2 =>
            split at h
            · cases h
            · next c2 rest2 hskip =>
              split at h
              · cases h
              · next hc2 =>
                split at h
                · cases h
                · next hend =>
                  have hc2e : c2 = StdPadding := by simpa using hc2
                  have hend2 : skipNewlines rest2 = [] := by simpa using hend
                  have e1 : stripNewlines rest = [StdPadding] := by
                    rw [← stripNewlines_skipNewlines, hskip, hc2e]
                    have := stripNewlines_of_skip_nil rest2 hend2
                    simp [stripNewlines, isNewline, StdPadding] at this ⊢
                    exact this
                  rw [e1, hc, h2]
                  simp [StdPadding]
          · next hne0 hne1 hne2 =>
            split at h
            · cases h
            · next hend =>
              have hend2 : skipNewlines rest = [] := by simpa using hend
              have e1 := stripNewlines_of_skip_nil rest hend2
              have n0 : dbuf.length ≠ 0 := hne0
              have n1 : dbuf.length ≠ 1 := hne1
              have n2 : dbuf.length ≠ 2 := hne2
              have h3 : dbuf.length = 3 := by omega
              rw [e1, hc, h3]
              simp [StdPadding]

theorem isStdPadded_of_decodeString (s bs : List Nat) (h : DecodeString s = .ok bs) :
    isStdPadded (stripNewlines s) = true := by
  obtain ⟨h1, h2, h3⟩ := wellFormed_of_decode s [] [] bs (by simp) h
  simp only [List.length_nil, Nat.zero_add] at h3
  simp only [isStdPadded, Bool.and_eq_true, decide_eq_true_eq]
  exact ⟨⟨h1, h2⟩, h3⟩

theorem decodeMap_of_mem (c : Nat) (h : c ∈ encodeStd) : ∃ v, decodeMap c = some v := by
  unfold decodeMap
  have hlt : encodeStd.indexOf c < 64 := by
    have := List.indexOf_lt_length.mpr h
    simpa [encodeStd, ascii] using this
  exact ⟨_, if_pos hlt⟩

theorem skipNewlines_of_strip_nil (s : List Nat) (h : stripNewlines s = []) :
    skipNewlines s = [] := by
  induction s with
  | nil => rfl
  | cons c rest ih =>
    by_cases hc : c = 10 ∨ c = 13
    · have e2 : stripNewlines (c :: rest) = stripNewlines rest := by
        rcases hc with rfl | rfl <;> simp [stripNewlines, isNewline]
      rw [e2] at h
      simp [skipNewlines, hc, ih h]
    · simp only [not_or] at hc
      simp [stripNewlines, isNewline, hc.1, hc.2] at h

theorem skipNewlines_of_strip_cons (s : List Nat) (c : Nat) (t : List Nat)
    (h : stripNewlines s = c :: t) :
    ∃ rest, skipNewlines s = c :: rest ∧ stripNewlines rest = t := by
  induction s with
  | nil => simp [stripNewlines] at h
  | cons x rest ih =>
    by_cases hx : x = 10 ∨ x = 13
    · have e2 : stripNewlines (x :: rest) = stripNewlines rest := by
        rcases hx with rfl | rfl <;> simp [stripNewlines, isNewline]
      rw [e2] at h
      obtain ⟨r, h1, h2⟩ := ih h
      exact ⟨r, by simp [skipNewlines, hx, h1], h2⟩
    · have e2 : stripNewlines (x :: rest) = x :: stripNewlines rest := by
        simp only [not_or] at hx
        simp [stripNewlines, isNewline, hx.1, hx.2]
      rw [e2] at h
      simp only [List.cons.injEq] at h
      obtain ⟨hxc, ht⟩ := h
      subst hxc
      exact ⟨rest, by simp [skipNewlines, hx], ht⟩

theorem decodeMap_newline : decodeMap 10 = none ∧ decodeMap 13 = none := by decide

/-- What is well-formed without its newlines, `decode` accepts. -/
theorem decode_of_wellFormed (s : List Nat) :
    ∀ (dbuf out : List Nat), dbuf.length ≤ 3 →
      ((stripNewlines s).takeWhile (fun c => c ≠ StdPadding)).all (fun c => c ∈ encodeStd) = true →
      (stripNewlines s).dropWhile (fun c => c ≠ StdPadding)
          ∈ [[], [StdPadding], [StdPadding, StdPadding]] →
      (dbuf.length + (stripNewlines s).length) % 4 = 0 →
      ∃ bs, decode dbuf out s = .ok bs := by
  induction s with
  | nil =>
    intro dbuf out hlen _ _ h3
    have h0 : dbuf.length = 0 := by
      simp only [stripNewlines, List.filter_nil, List.length_nil, Nat.add_zero] at h3
      omega
    exact ⟨out, by simp [decode, h0]⟩
  | cons c rest ih =>
    intro dbuf out hlen h1 h2 h3
    by_cases hnl : c = 10 ∨ c = 13
    · have hstrip : stripNewlines (c :: rest) = stripNewlines rest := by
        rcases hnl with rfl | rfl <;> simp [stripNewlines, isNewline]
      rw [hstrip] at h1 h2 h3
      obtain ⟨bs, hbs⟩ := ih dbuf out hlen h1 h2 h3
      have hmap : decodeMap c = none := by
        rcases hnl with rfl | rfl
        · exact decodeMap_newline.1
        · exact decodeMap_newline.2
      exact ⟨bs, by simp only [decode, hmap, hnl, if_true]; exact hbs⟩
    · have hstrip : stripNewlines (c :: rest) = c :: stripNewlines rest := by
        simp only [not_or] at hnl
        simp [stripNewlines, isNewline, hnl.1, hnl.2]
      rw [hstrip] at h1 h2 h3
      by_cases hpad : c = StdPadding
      · subst hpad
        have hd : List.dropWhile (fun c => decide (c ≠ StdPadding))
            (StdPadding :: stripNewlines rest) = StdPadding :: stripNewlines rest := by
          simp [List.dropWhile]
        rw [hd] at h2
        have hmap : decodeMap StdPadding = none := decodeMap_padding
        simp only [List.length_cons] at h3
        simp only [List.mem_cons, List.cons.injEq, true_and, List.mem_singleton,
          List.not_mem_nil, or_false, reduceCtorEq, false_or] at h2
        rcases h2 with h2 | h2
        · -- one padding character: the quantum holds three characters
          have hj : dbuf.length = 3 := by rw [h2] at h3; simp at h3; omega
          have hskip := skipNewlines_of_strip_nil rest h2
          refine ⟨out ++ quantumBytes dbuf, ?_⟩
          simp [decode, hmap, hnl, hj, hskip]
        · -- two padding characters: the quantum holds two characters
          have hj : dbuf.length = 2 := by rw [h2] at h3; simp at h3; omega
          obtain ⟨rest2, hs1, hs2⟩ := skipNewlines_of_strip_cons rest _ _ h2
          have hskip2 := skipNewlines_of_strip_nil rest2 hs2
          refine ⟨out ++ quantumBytes dbuf, ?_⟩
          simp [decode, hmap, hnl, hj, hs1, hskip2]
      · have ht : List.takeWhile (fun c => decide (c ≠ StdPadding)) (c :: stripNewlines rest)
            = c :: List.takeWhile (fun c => decide (c ≠ StdPadding)) (stripNewlines rest) := by
          simp [List.takeWhile, hpad]
        have hd : List.dropWhile (fun c => decide (c ≠ StdPadding)) (c :: stripNewlines rest)
            = List.dropWhile (fun c => decide (c ≠ StdPadding)) (stripNewlines rest) := by
          simp [List.dropWhile, hpad]
        rw [ht] at h1
        rw [hd] at h2
        simp only [List.all_cons, Bool.and_eq_true, decide_eq_true_eq] at h1
        obtain ⟨v, hv⟩ := decodeMap_of_mem c h1.1
        simp only [List.length_cons] at h3
        by_cases hj : dbuf.length = 3
        · obtain ⟨bs, hbs⟩ := ih [] (out ++ quantumBytes (dbuf ++ [v])) (by simp) h1.2 h2
            (by simp only [List.length_nil]; omega)
          exact ⟨bs, by simp only [decode, hv, hj, if_true]; exact hbs⟩
        · obtain ⟨bs, hbs⟩ := ih (dbuf ++ [v]) out (by simp; omega) h1.2 h2
            (by simp only [List.length_append, List.length_cons, List.length_nil]; omega)
          exact ⟨bs, by simp only [decode, hv, hj, if_false]; exact hbs⟩

/-- The inputs `DecodeString` accepts are those that are well-formed once
their line feeds and carriage returns are taken out. -/
theorem decodeString_ok_iff (s : List Nat) :
    (∃ bs, DecodeString s = .ok bs) ↔ isStdPadded (stripNewlines s) = true := by
  constructor
  · rintro ⟨bs, h⟩
    exact isStdPadded_of_decodeString s bs h
  · intro h
    simp only [isStdPadded, Bool.and_eq_true, decide_eq_true_eq] at h
    exact decode_of_wellFormed s [] [] (by simp) h.1.1 h.1.2 (by simpa using h.2)

end Base64

/-! ## Lemmas: big-endian numbers and base 58 -/

theorem foldl_beNat (bs : List Nat) (acc : Nat) :
    bs.foldl (fun acc b => acc * 256 + b) acc = acc * 256 ^ bs.length + beNat bs := by
  induction bs generalizing acc with
  | nil => simp [beNat]
  | cons b bs ih =>
    simp only [List.foldl_cons, List.length_cons, beNat]
    rw [ih, ih (0 * 256 + b)]
    ring

theorem beNat_append (xs ys : List Nat) :
    beNat (xs ++ ys) = beNat xs * 256 ^ ys.length + beNat ys := by
  simp only [beNat, List.foldl_append]
  exact foldl_beNat ys _

theorem beNat_lt (bs : List Nat) (h : IsBytes bs) : beNat bs < 256 ^ bs.length := by
  induction bs using List.reverseRecOn with
  | nil => simp [beNat]
  | append_singleton bs b ih =>
    have hb : b < 256 := h b (by simp)
    have hbs : IsBytes bs := fun x hx => h x (by simp [hx])
    have h1 := ih hbs
    have e : beNat [b] = b := by simp [beNat]
    rw [beNat_append, e]
    simp only [List.length_append, List.length_cons, List.length_nil, pow_succ, pow_zero]
    omega

namespace Base58

theorem lowDigits_length (k n : Nat) : (lowDigits k n).length = k := by
  induction k generalizing n with
  | zero => rfl
  | succ k ih => simp [lowDigits, ih]

theorem lowDigits_lt (k n : Nat) : ∀ v ∈ lowDigits k n, v < 58 := by
  induction k generalizing n with
  | zero => intro v hv; simp [lowDigits] at hv
  | succ k ih =>
    intro v hv
    simp only [lowDigits, List.mem_cons] at hv
    rcases hv with rfl | hv
    · exact Nat.mod_lt _ (by decide)
    · exact ih _ v hv

/-- A number of more than `k` digits: its digits are the `k` lowest ones and
the digits of the quotient. -/
theorem digitsLE_split (k fuel n : Nat) (h : 58 ^ k ≤ n) :
    digitsLE (k + fuel) n = lowDigits k n ++ digitsLE fuel (n / 58 ^ k) := by
  induction k generalizing n with
  | zero => simp [lowDigits]
  | succ k ih =>
    have hpos : 0 < 58 ^ (k + 1) := Nat.pow_pos (by decide)
    have hn : n ≠ 0 := by omega
    have hk : 58 ^ k ≤ n / 58 := by
      rw [Nat.le_div_iff_mul_le (by decide)]
      rw [pow_succ] at h
      exact h
    rw [show k + 1 + fuel = (k + fuel) + 1 by omega]
    simp only [digitsLE, hn, if_false, lowDigits, List.cons_append]
    rw [ih (n / 58) hk, Nat.div_div_eq_div_mul, pow_succ, Nat.mul_comm]

theorem encodeDigit_mem : ∀ v < 58, encodeDigit v ∈ BTCAlphabet := by decide

theorem decodeDigit_encodeDigit : ∀ v < 58, decodeDigit (encodeDigit v) = some v := by decide

/-- The text of an Ed25519 peer identifier: eight fixed characters, then 44
digits. -/
theorem encode_ed25519_id (pk : List Nat) (hlen : pk.length = 32) (hb : IsBytes pk) :
    Encode ([0x00, 36] ++ ([0x08, 0x01, 0x12, 0x20] ++ pk))
      = ascii "12D3KooW"
          ++ (lowDigits 44 (idHead * 256 ^ 32 + beNat pk)).reverse.map encodeDigit := by
  have hN : beNat ([0x00, 36] ++ ([0x08, 0x01, 0x12, 0x20] ++ pk))
      = idHead * 256 ^ 32 + beNat pk := by
    rw [← List.append_assoc, beNat_append, hlen]
    rfl
  have hlt := beNat_lt pk hb
  rw [hlen] at hlt
  have hlo : 58 ^ 44 ≤ idHead * 256 ^ 32 + beNat pk := by
    have : 58 ^ 44 ≤ idHead * 256 ^ 32 := by decide
    omega
  have hq : (idHead * 256 ^ 32 + beNat pk) / 58 ^ 44 = 45971276209 := by
    apply Nat.div_eq_of_lt_le
    · have : 45971276209 * 58 ^ 44 ≤ idHead * 256 ^ 32 := by decide
      omega
    · have : (idHead + 1) * 256 ^ 32 ≤ (45971276209 + 1) * 58 ^ 44 := by decide
      have e : (idHead + 1) * 256 ^ 32 = idHead * 256 ^ 32 + 256 ^ 32 := by ring
      omega
  have htop : digitsLE 32 45971276209 = [29, 46, 46, 18, 2, 12, 1] := by decide
  have hz : (List.takeWhile (fun b => b = 0) ([0x00, 36] ++ ([0x08, 0x01, 0x12, 0x20] ++ pk))).length
      = 1 := by simp [List.takeWhile]
  unfold Encode
  simp only [hz, hN]
  have hfuel : 2 * ([0x00, 36] ++ ([0x08, 0x01, 0x12, 0x20] ++ pk)).length = 44 + 32 := by
    simp [hlen]
  rw [hfuel, digitsLE_split 44 32 _ hlo, hq, htop]
  simp only [List.reverse_append, List.map_append]
  rfl

end Base58

/-! ## Lemmas: decoding base 58 -/

theorem beNat_eq_leNat_reverse (bs : List Nat) : beNat bs = leNat bs.reverse := by
  induction bs using List.reverseRecOn with
  | nil => rfl
  | append_singleton bs b ih =>
    have e : beNat [b] = b := by simp [beNat]
    have e2 : (bs ++ [b]).reverse = b :: bs.reverse := by simp
    rw [beNat_append, e, e2, leNat, ← ih]
    simp only [List.length_cons, List.length_nil, pow_succ, pow_zero]
    omega

theorem leNat_ne_zero (rs : List Nat) (hne : rs ≠ []) (hlast : rs.getLast hne ≠ 0) :
    leNat rs ≠ 0 := by
  induction rs with
  | nil => exact absurd rfl hne
  | cons b rs ih =>
    simp only [leNat]
    by_cases hrs : rs = []
    · subst hrs
      simp only [List.getLast_singleton] at hlast
      simp only [leNat]; omega
    · have := ih hrs (by rwa [List.getLast_cons hrs] at hlast)
      omega

namespace Base58

theorem bytesLE_zero (fuel : Nat) : bytesLE fuel 0 = [] := by
  cases fuel <;> simp [bytesLE]

/-- The bytes of a little-endian number whose last byte is not zero. -/
theorem bytesLE_leNat (rs : List Nat) :
    ∀ fuel, IsBytes rs → (∀ hne : rs ≠ [], rs.getLast hne ≠ 0) → rs.length ≤ fuel →
      bytesLE fuel (leNat rs) = rs := by
  induction rs with
  | nil => intro fuel _ _ _; exact bytesLE_zero fuel
  | cons b rs ih =>
    intro fuel hb hlast hlen
    obtain ⟨f, rfl⟩ : ∃ f, fuel = f + 1 := ⟨fuel - 1, by simp at hlen; omega⟩
    have hne : leNat (b :: rs) ≠ 0 := leNat_ne_zero _ (by simp) (hlast (by simp))
    have hb256 : b < 256 := hb b (by simp)
    have hrs : IsBytes rs := fun x hx => hb x (by simp [hx])
    have hl : ∀ h : rs ≠ [], rs.getLast h ≠ 0 := by
      intro h
      have := hlast (by simp)
      rwa [List.getLast_cons h] at this
    have e1 : leNat (b :: rs) % 256 = b := by simp only [leNat]; omega
    have e2 : leNat (b :: rs) / 256 = leNat rs := by simp only [leNat]; omega
    simp only [bytesLE, hne, if_false, e1, e2]
    rw [ih f hrs hl (by simp at hlen; omega)]

/-- The bytes of a big-endian number whose first byte is not zero. -/
theorem bytesLE_beNat (bs : List Nat) (fuel : Nat) (hb : IsBytes bs)
    (hhead : ∀ hne : bs ≠ [], bs.head hne ≠ 0) (hlen : bs.length ≤ fuel) :
    (bytesLE fuel (beNat bs)).reverse = bs := by
  rw [beNat_eq_leNat_reverse, bytesLE_leNat bs.reverse fuel]
  · simp
  · intro x hx; exact hb x (by simpa using hx)
  · intro hne
    have hne2 : bs ≠ [] := by simpa using hne
    rw [List.getLast_reverse]
    exact hhead hne2
  · simpa using hlen

theorem decodeValue_map (ds : List Nat) (h : ∀ v ∈ ds, v < 58) (acc : Nat) :
    decodeValue acc (ds.map encodeDigit) = some (ds.foldl (fun a v => a * 58 + v) acc) := by
  induction ds generalizing acc with
  | nil => rfl
  | cons v ds ih =>
    have hv : v < 58 := h v (by simp)
    simp only [List.map_cons, decodeValue, decodeDigit_encodeDigit v hv, List.foldl_cons]
    exact ih (fun x hx => h x (by simp [hx])) _

theorem decodeValue_append (xs ys : List Nat) (acc : Nat) :
    decodeValue acc (xs ++ ys) = (decodeValue acc xs).bind (fun n => decodeValue n ys) := by
  induction xs generalizing acc with
  | nil => rfl
  | cons x xs ih =>
    simp only [List.cons_append, decodeValue]
    cases decodeDigit x with
    | none => rfl
    | some v => exact ih _

/-- The number the `k` lowest digits spell, most significant first. -/
theorem foldl_reverse_lowDigits (k n acc : Nat) :
    (lowDigits k n).reverse.foldl (fun a v => a * 58 + v) acc = acc * 58 ^ k + n % 58 ^ k := by
  induction k generalizing n with
  | zero => simp [lowDigits, Nat.mod_one]
  | succ k ih =>
    simp only [lowDigits, List.reverse_cons, List.foldl_append, List.foldl_cons, List.foldl_nil]
    rw [ih, pow_succ, Nat.mul_comm (58 ^ k) 58, Nat.mod_mul]
    ring

/-- Decoding the text of an Ed25519 identifier gives the identifier back. -/
theorem decode_encode_ed25519_id (pk : List Nat) (hlen : pk.length = 32) (hb : IsBytes pk) :
    Decode (Encode ([0x00, 36] ++ ([0x08, 0x01, 0x12, 0x20] ++ pk)))
      = .ok ([0x00, 36] ++ ([0x08, 0x01, 0x12, 0x20] ++ pk)) := by
  rw [encode_ed25519_id pk hlen hb]
  have hlt := beNat_lt pk hb
  rw [hlen] at hlt
  have hq : (idHead * 256 ^ 32 + beNat pk) / 58 ^ 44 = 45971276209 := by
    apply Nat.div_eq_of_lt_le
    · have : 45971276209 * 58 ^ 44 ≤ idHead * 256 ^ 32 := by decide
      omega
    · have : (idHead + 1) * 256 ^ 32 ≤ (45971276209 + 1) * 58 ^ 44 := by decide
      have e : (idHead + 1) * 256 ^ 32 = idHead * 256 ^ 32 + 256 ^ 32 := by ring
      omega
  have hval : decodeValue 0 (ascii "12D3KooW"
        ++ (lowDigits 44 (idHead * 256 ^ 32 + beNat pk)).reverse.map encodeDigit)
      = some (idHead * 256 ^ 32 + beNat pk) := by
    have h8 : decodeValue 0 (ascii "12D3KooW") = some 45971276209 := by decide
    rw [decodeValue_append, h8]
    simp only [Option.some_bind]
    rw [decodeValue_map _ (fun v hv => lowDigits_lt 44 _ v (by simpa using hv)),
      foldl_reverse_lowDigits]
    congr 1
    have := Nat.div_add_mod (idHead * 256 ^ 32 + beNat pk) (58 ^ 44)
    rw [hq] at this
    omega
  have hne : ascii "12D3KooW"
        ++ (lowDigits 44 (idHead * 256 ^ 32 + beNat pk)).reverse.map encodeDigit ≠ [] := by
    intro h
    have := congrArg List.length h
    simp [ascii] at this
  have hz : (List.takeWhile (fun c => c = encodeDigit 0) (ascii "12D3KooW"
        ++ (lowDigits 44 (idHead * 256 ^ 32 + beNat pk)).reverse.map encodeDigit)).length
      = 1 := by
    have e : ascii "12D3KooW" = 49 :: 50 :: ascii "D3KooW" := by decide
    have e0 : encodeDigit 0 = 49 := by decide
    rw [e, e0]
    simp [List.takeWhile]
  have hl : (ascii "12D3KooW"
        ++ (lowDigits 44 (idHead * 256 ^ 32 + beNat pk)).reverse.map encodeDigit).length
      = 52 := by
    have e : (ascii "12D3KooW").length = 8 := by decide
    simp [lowDigits_length, e]
  have hbytes : (bytesLE 52 (idHead * 256 ^ 32 + beNat pk)).reverse
      = [36, 0x08, 0x01, 0x12, 0x20] ++ pk := by
    have hN : idHead * 256 ^ 32 + beNat pk = beNat ([36, 0x08, 0x01, 0x12, 0x20] ++ pk) := by
      rw [beNat_append, hlen]
      rfl
    rw [hN]
    apply bytesLE_beNat
    · intro x hx
      simp only [List.cons_append, List.nil_append, List.mem_cons] at hx
      rcases hx with rfl | rfl | rfl | rfl | rfl | hx
      all_goals first | omega | exact hb x hx
    · intro _; simp
    · simp [hlen]
  unfold Decode
  rw [if_neg hne]
  simp only [hval, hz, hl, hbytes]
  rfl

end Base58

/-! ## Lemmas: the three ways through `Read` -/

theorem read_of_decode_error (d : PeerIdDataSource) (c : Config) (resp : ReadResponse)
    (e : Base64.CorruptInputError)
    (hresp : HasError resp.Diagnostics = false)
    (hdec : Base64.DecodeString c.ed25519_secret_key.ValueString = .error e) :
    Read d ⟨c⟩ resp = .ok { resp with Diagnostics := resp.Diagnostics ++ [decodeError] } := by
  simp [Read, Config.Get, Append, hresp, hdec, addError_eq, decodeError]

theorem read_of_bad_length (d : PeerIdDataSource) (c : Config) (resp : ReadResponse)
    (bytes : List Nat)
    (hresp : HasError resp.Diagnostics = false)
    (hdec : Base64.DecodeString c.ed25519_secret_key.ValueString = .ok bytes)
    (hlen : bytes.length ≠ 32) :
    Read d ⟨c⟩ resp = .ok { resp with Diagnostics := resp.Diagnostics ++ [lengthError] } := by
  simp [Read, Config.Get, Append, hresp, hdec, hlen, addError_eq, lengthError]

theorem marshal_ed25519 (pub : List Nat) (hlen : pub.length = 32) :
    Crypto.MarshalPublicKey (.ed25519 pub) = .ok ([0x08, 0x01, 0x12, 0x20] ++ pub) := by
  have h1 : Varint.PutUvarint 1 = [1] := by decide
  have h32 : Varint.PutUvarint 32 = [32] := by decide
  simp [Crypto.MarshalPublicKey, Crypto.PubKey.Raw, Crypto.PubKey.GetType, Crypto.marshalProto,
    Crypto.KeyType.number, hlen, h1, h32]

theorem idFromPublicKey_ed25519 (pub : List Nat) (hlen : pub.length = 32) :
    Peer.IDFromPublicKey (some (.ed25519 pub))
      = .ok ([0x00, 36] ++ ([0x08, 0x01, 0x12, 0x20] ++ pub), none) := by
  have h0 : Varint.PutUvarint Multihash.IDENTITY = [0] := by decide
  have h36 : Varint.PutUvarint 36 = [36] := by decide
  simp [Peer.IDFromPublicKey, marshal_ed25519 pub hlen, Peer.AdvancedEnableInlining,
    Peer.maxInlineKeyLength, hlen, Multihash.Sum, Multihash.Encode, h0, h36]

theorem read_of_seed (d : PeerIdDataSource) (c : Config) (resp : ReadResponse)
    (bytes : List Nat)
    (hresp : HasError resp.Diagnostics = false)
    (hdec : Base64.DecodeString c.ed25519_secret_key.ValueString = .ok bytes)
    (hlen : bytes.length = 32) :
    Read d ⟨c⟩ resp
      = .ok ⟨some ⟨c.ed25519_secret_key,
                .value (Base58.Encode ([0x00, 36] ++ ([0x08, 0x01, 0x12, 0x20]
                          ++ Ed25519.publicKey bytes)))⟩,
             resp.Diagnostics⟩ := by
  have hdrop : List.drop 32 (bytes ++ Ed25519.publicKey bytes) = Ed25519.publicKey bytes := by
    rw [← hlen]; exact List.drop_left _ _
  simp [Read, Config.Get, Append, hresp, hdec, hlen, Ed25519.NewKeyFromSeed, Ed25519.SeedSize,
    Crypto.KeyPairFromStdKey, hdrop, idFromPublicKey_ed25519 _ (publicKey_length bytes),
    StateSet, StringValue, Peer.ID.String]

/-! ## Lemmas: reading an identifier back -/

theorem multihash_decode_ed25519_id (pk : List Nat) (hlen : pk.length = 32) :
    Multihash.Decode ([0x00, 36] ++ ([0x08, 0x01, 0x12, 0x20] ++ pk))
      = .ok ⟨Multihash.IDENTITY, 36, [0x08, 0x01, 0x12, 0x20] ++ pk⟩ := by
  simp [Multihash.Decode, Varint.FromUvarint, Varint.fromAux, hlen, Multihash.IDENTITY]

theorem unmarshal_ed25519 (pk : List Nat) (hlen : pk.length = 32) :
    Crypto.UnmarshalPublicKey ([0x08, 0x01, 0x12, 0x20] ++ pk) = .ok (.ed25519 pk) := by
  have htake : List.take 32 pk = pk := by rw [← hlen]; exact List.take_length pk
  have hdrop : List.drop 32 pk = [] := by rw [← hlen]; exact List.drop_length pk
  simp [Crypto.UnmarshalPublicKey, Crypto.unmarshalFields, Crypto.protoVarint, hlen, htake,
    hdrop, Crypto.KeyType.ofNumber, Crypto.UnmarshalEd25519PublicKey]

theorem extractPublicKey_ed25519_id (pk : List Nat) (hlen : pk.length = 32) :
    Peer.ID.ExtractPublicKey ([0x00, 36] ++ ([0x08, 0x01, 0x12, 0x20] ++ pk))
      = .ok (.ed25519 pk) := by
  have h := unmarshal_ed25519 pk hlen
  simp only [Peer.ID.ExtractPublicKey, multihash_decode_ed25519_id pk hlen]
  simpa using h

/-! ## Lemmas: what `Read` depends on -/

theorem read_client_irrelevant (d1 d2 : PeerIdDataSource) (req : ReadRequest)
    (resp : ReadResponse) : Read d1 req resp = Read d2 req resp := rfl

theorem read_eq_of_key (d1 d2 : PeerIdDataSource) (key base58a base58b : TfString)
    (resp : ReadResponse) :
    Read d1 ⟨⟨key, base58a⟩⟩ resp = Read d2 ⟨⟨key, base58b⟩⟩ resp := by
  simp only [Read, Config.Get]

/-! ## Lemmas: the state around `Read` -/

theorem idFromPublicKeyIn_true (pk : Option Crypto.PubKey) :
    Peer.IDFromPublicKeyIn true pk = Peer.IDFromPublicKey pk := rfl

/-- A call of `Read` leaves the package variable as it is. -/
theorem readIn_keeps_inlining (w : World) (d : PeerIdDataSource) (req : ReadRequest)
    (resp : ReadResponse) :
    (ReadIn w d req resp).1.AdvancedEnableInlining = w.AdvancedEnableInlining := by
  unfold ReadIn
  simp only
  repeat' split
  all_goals rfl

/-- In every state of a run the package variable has its initial value. -/
theorem reachable_inlining (w : World) (h : Reachable w) : w.AdvancedEnableInlining = true := by
  induction h with
  | initial => rfl
  | read w d req resp _ ih => rw [readIn_keeps_inlining, ih]

/-- With the package variable at its initial value the outcome is that of
`Read`. -/
theorem readIn_outcome (w : World) (d : PeerIdDataSource) (req : ReadRequest)
    (resp : ReadResponse) (hw : w.AdvancedEnableInlining = true) :
    (ReadIn w d req resp).2 = Read d req resp := by
  unfold ReadIn Read
  simp only [hw, idFromPublicKeyIn_true]
  repeat' split
  all_goals rfl

/-! ## Lemmas: the specification's identifier, test vectors -/

theorem specPeerId_eq (seed : List Nat) :
    specPeerId seed
      = Base58.Encode ([0x00, 36] ++ ([0x08, 0x01, 0x12, 0x20] ++ Ed25519.publicKey seed)) := by
  simp [specPeerId, publicKey_length]

theorem publicKey_testAccSeed :
    Ed25519.publicKey testAccSeed
      = [0x1d, 0x3a, 0xc5, 0xaf, 0x95, 0xf0, 0x32, 0x43, 0x86, 0xf4, 0x68, 0x0c, 0xa5, 0xff, 0xfa,
         0x3c, 0x7a, 0x50, 0xd3, 0xf7, 0x8c, 0xbb, 0x24, 0xc4, 0x24, 0xd4, 0xdb, 0x1d, 0xca, 0x11,
         0x7e, 0x0d] := by
  decide!

theorem publicKey_rfc8032 : Ed25519.publicKey rfc8032Seed = rfc8032Public := by
  decide!

theorem specPeerId_testAccSeed : specPeerId testAccSeed = testAccExpected := by
  rw [specPeerId_eq, publicKey_testAccSeed]
  decide!

/-! ## The claims -/

/-- C1: for every 32-byte seed, `Read` with `ed25519_secret_key` set to the
standard padded base64 of the seed returns without an error diagnostic and
stores as `base58` the peer identifier of the specification, the base58 text
of the multihash of the wire-encoded Ed25519 public key of the seed; for the
32 characters of the acceptance test that identifier is
`12D3KooWBnTyEyBVeYpZJobw78rb85nNamrYQR3Tc6gJmfQ76pG4`. -/
theorem read_stores_peer_id :
    (∀ (d : PeerIdDataSource) (resp : ReadResponse) (seed : List Nat),
      HasError resp.Diagnostics = false → seed.length = 32 → IsBytes seed →
      Read d (request (Base64.EncodeToString seed)) resp
        = .ok ⟨some ⟨.value (Base64.EncodeToString seed), .value (specPeerId seed)⟩,
               resp.Diagnostics⟩)
    ∧ testAccSeed = List.replicate 31 48 ++ [49]
    ∧ ∀ d : PeerIdDataSource,
        Read d (request testAccKey) emptyResponse
          = .ok ⟨some ⟨.value testAccKey, .value testAccExpected⟩, []⟩ := by
  have key : ∀ (d : PeerIdDataSource) (resp : ReadResponse) (seed : List Nat),
      HasError resp.Diagnostics = false → seed.length = 32 → IsBytes seed →
      Read d (request (Base64.EncodeToString seed)) resp
        = .ok ⟨some ⟨.value (Base64.EncodeToString seed), .value (specPeerId seed)⟩,
               resp.Diagnostics⟩ := by
    intro d resp seed hresp hlen hb
    rw [specPeerId_eq]
    exact read_of_seed d _ resp seed hresp (Base64.decodeString_encodeToString seed hb) hlen
  refine ⟨key, by decide, ?_⟩
  intro d
  have h := key d emptyResponse testAccSeed rfl (by decide) (by decide)
  rw [specPeerId_testAccSeed] at h
  exact h

/-- Witness of C1: the seed of the first test vector of RFC 8032, whose
public key the model derives as the RFC gives it. -/
theorem read_stores_peer_id_witness :
    Ed25519.publicKey rfc8032Seed = rfc8032Public
    ∧ Read ⟨none⟩ (request (Base64.EncodeToString rfc8032Seed)) emptyResponse
        = .ok ⟨some ⟨.value (Base64.EncodeToString rfc8032Seed),
                     .value (specPeerId rfc8032Seed)⟩, []⟩ :=
  ⟨publicKey_rfc8032,
   read_stores_peer_id.1 ⟨none⟩ emptyResponse rfc8032Seed rfl (by decide) (by decide)⟩

/-- C2: for every input that decodes to `n` bytes with `n` other than 32,
`Read` adds the error diagnostic "Invalid secrey key length" and returns:
the state stays as it was, no key is derived and no identifier stored, the
seed is neither cut nor padded. -/
theorem wrong_length_is_rejected (d : PeerIdDataSource) (resp : ReadResponse)
    (s bytes : List Nat) (hresp : HasError resp.Diagnostics = false)
    (hdec : Base64.DecodeString s = .ok bytes) (hlen : bytes.length ≠ 32) :
    Read d (request s) resp
      = .ok ⟨resp.State,
             resp.Diagnostics
               ++ [⟨Severity.Error, "Invalid secrey key length", "Should be 32"⟩]⟩ :=
  read_of_bad_length d _ resp bytes hresp hdec hlen

/-- Witness of C2: seeds of 0, 16, 31, 33 and 64 bytes. -/
theorem wrong_length_is_rejected_witness :
    Read ⟨none⟩ (request (ascii "")) emptyResponse
        = .ok ⟨none, [⟨Severity.Error, "Invalid secrey key length", "Should be 32"⟩]⟩
    ∧ Read ⟨none⟩ (request (Base64.EncodeToString (List.replicate 16 0))) emptyResponse
        = .ok ⟨none, [⟨Severity.Error, "Invalid secrey key length", "Should be 32"⟩]⟩
    ∧ Read ⟨none⟩ (request (Base64.EncodeToString (List.replicate 31 0))) emptyResponse
        = .ok ⟨none, [⟨Severity.Error, "Invalid secrey key length", "Should be 32"⟩]⟩
    ∧ Read ⟨none⟩ (request (Base64.EncodeToString (List.replicate 33 0))) emptyResponse
        = .ok ⟨none, [⟨Severity.Error, "Invalid secrey key length", "Should be 32"⟩]⟩
    ∧ Read ⟨none⟩ (request (Base64.EncodeToString (List.replicate 64 0))) emptyResponse
        = .ok ⟨none, [⟨Severity.Error, "Invalid secrey key length", "Should be 32"⟩]⟩ :=
  ⟨wrong_length_is_rejected ⟨none⟩ emptyResponse (ascii "") [] rfl (by decide) (by decide),
   wrong_length_is_rejected ⟨none⟩ emptyResponse _ (List.replicate 16 0) rfl
     (Base64.decodeString_encodeToString _ (by decide)) (by decide),
   wrong_length_is_rejected ⟨none⟩ emptyResponse _ (List.replicate 31 0) rfl
     (Base64.decodeString_encodeToString _ (by decide)) (by decide),
   wrong_length_is_rejected ⟨none⟩ emptyResponse _ (List.replicate 33 0) rfl
     (Base64.decodeString_encodeToString _ (by decide)) (by decide),
   wrong_length_is_rejected ⟨none⟩ emptyResponse _ (List.replicate 64 0) rfl
     (Base64.decodeString_encodeToString _ (by decide)) (by decide)⟩

/-- Counterexample to C3: the key of the acceptance test with a line feed
after it holds a character outside the alphabet, yet `Read` decodes it and
stores the identifier. -/
theorem line_feed_is_skipped :
    10 ∉ Base64.encodeStd ∧ 10 ≠ Base64.StdPadding
    ∧ Base64.isStdPadded (testAccKey ++ [10]) = false
    ∧ Read ⟨none⟩ (request (testAccKey ++ [10])) emptyResponse
        = .ok ⟨some ⟨.value (testAccKey ++ [10]), .value testAccExpected⟩, []⟩ := by
  decide!

/-- C3, amended: for every input that, with its line feeds and carriage
returns taken out, is not a well-formed standard-alphabet padded base64
string, `Read` adds the error diagnostic "Base64 decode" and returns before
the length check: the state stays as it was and no identifier is stored. -/
theorem malformed_base64_is_rejected (d : PeerIdDataSource) (resp : ReadResponse)
    (s : List Nat) (hresp : HasError resp.Diagnostics = false)
    (hbad : Base64.isStdPadded (Base64.stripNewlines s) = false) :
    Read d (request s) resp
      = .ok ⟨resp.State,
             resp.Diagnostics
               ++ [⟨Severity.Error, "Base64 decode",
                    "Failed to base64-decode the provided secret key"⟩]⟩ := by
  cases hdec : Base64.DecodeString s with
  | error e => exact read_of_decode_error d _ resp e hresp hdec
  | ok bytes =>
    have := Base64.isStdPadded_of_decodeString s bytes hdec
    rw [hbad] at this
    cases this

/-- Witness of C3: a character outside the alphabet, a missing padding
character, padding in the middle, and a length that is no multiple of four. -/
theorem malformed_base64_is_rejected_witness :
    Read ⟨none⟩ (request (ascii "QUJD!A==")) emptyResponse
        = .ok ⟨none, [⟨Severity.Error, "Base64 decode",
                       "Failed to base64-decode the provided secret key"⟩]⟩
    ∧ Read ⟨none⟩ (request (ascii "QQ=")) emptyResponse
        = .ok ⟨none, [⟨Severity.Error, "Base64 decode",
                       "Failed to base64-decode the provided secret key"⟩]⟩
    ∧ Read ⟨none⟩ (request (ascii "QQ==QUJD")) emptyResponse
        = .ok ⟨none, [⟨Severity.Error, "Base64 decode",
                       "Failed to base64-decode the provided secret key"⟩]⟩
    ∧ Read ⟨none⟩ (request (ascii "QUJDQ")) emptyResponse
        = .ok ⟨none, [⟨Severity.Error, "Base64 decode",
                       "Failed to base64-decode the provided secret key"⟩]⟩ :=
  ⟨malformed_base64_is_rejected ⟨none⟩ emptyResponse (ascii "QUJD!A==") rfl (by decide),
   malformed_base64_is_rejected ⟨none⟩ emptyResponse (ascii "QQ=") rfl (by decide),
   malformed_base64_is_rejected ⟨none⟩ emptyResponse (ascii "QQ==QUJD") rfl (by decide),
   malformed_base64_is_rejected ⟨none⟩ emptyResponse (ascii "QUJDQ") rfl (by decide)⟩

/-- C4: for every input whose base64 decoding gives exactly 32 bytes the
derivation in `Read` cannot fail: `NewKeyFromSeed` does not panic, the error
of `KeyPairFromStdKey`, given a pointer to that key, is `nil` and its public
key is not, the error of `IDFromPublicKey` is `nil`, and `Read` stores the
text of that identifier.  And whatever the input, `Read` returns, and it
reports an error only when the decoding failed or the length is not 32. -/
theorem derivation_cannot_fail (d : PeerIdDataSource) (resp : ReadResponse)
    (hresp : HasError resp.Diagnostics = false) :
    (∀ s bytes : List Nat, Base64.DecodeString s = .ok bytes → bytes.length = 32 →
      ∃ priv_key priv pub_key peer_id,
        Ed25519.NewKeyFromSeed bytes = .ok priv_key
        ∧ Crypto.KeyPairFromStdKey (some (.ed25519Ptr priv_key))
            = (some priv, some pub_key, none)
        ∧ Peer.IDFromPublicKey (some pub_key) = .ok (peer_id, none)
        ∧ Read d (request s) resp
            = .ok ⟨some ⟨.value s, .value (Peer.ID.String peer_id)⟩, resp.Diagnostics⟩)
    ∧ ∀ s : List Nat, ∃ r, Read d (request s) resp = .ok r
        ∧ (HasError r.Diagnostics = true →
            (∃ e, Base64.DecodeString s = .error e)
            ∨ ∃ bytes, Base64.DecodeString s = .ok bytes ∧ bytes.length ≠ 32) := by
  constructor
  · intro s bytes hdec hlen
    have hdrop : List.drop 32 (bytes ++ Ed25519.publicKey bytes) = Ed25519.publicKey bytes := by
      rw [← hlen]; exact List.drop_left _ _
    refine ⟨bytes ++ Ed25519.publicKey bytes, .ed25519 (bytes ++ Ed25519.publicKey bytes),
      .ed25519 (Ed25519.publicKey bytes),
      [0x00, 36] ++ ([0x08, 0x01, 0x12, 0x20] ++ Ed25519.publicKey bytes), ?_, ?_, ?_, ?_⟩
    · simp [Ed25519.NewKeyFromSeed, Ed25519.SeedSize, hlen]
    · simp [Crypto.KeyPairFromStdKey, hdrop]
    · exact idFromPublicKey_ed25519 _ (publicKey_length bytes)
    · exact read_of_seed d _ resp bytes hresp hdec hlen
  · intro s
    cases hdec : Base64.DecodeString s with
    | error e =>
      exact ⟨_, read_of_decode_error d _ resp e hresp hdec, fun _ => Or.inl ⟨e, rfl⟩⟩
    | ok bytes =>
      by_cases hlen : bytes.length = 32
      · refine ⟨_, read_of_seed d _ resp bytes hresp hdec hlen, ?_⟩
        intro h
        simp [hresp] at h
      · exact ⟨_, read_of_bad_length d _ resp bytes hresp hdec hlen,
          fun _ => Or.inr ⟨bytes, rfl, hlen⟩⟩

/-- Witness of C4: the key of the acceptance test. -/
theorem derivation_cannot_fail_witness :
    ∃ priv_key priv pub_key peer_id,
      Ed25519.NewKeyFromSeed testAccSeed = .ok priv_key
      ∧ Crypto.KeyPairFromStdKey (some (.ed25519Ptr priv_key)) = (some priv, some pub_key, none)
      ∧ Peer.IDFromPublicKey (some pub_key) = .ok (peer_id, none)
      ∧ Read ⟨none⟩ (request testAccKey) emptyResponse
          = .ok ⟨some ⟨.value testAccKey, .value (Peer.ID.String peer_id)⟩, []⟩ :=
  (derivation_cannot_fail ⟨none⟩ emptyResponse rfl).1 testAccKey testAccSeed
    (Base64.decodeString_encodeToString testAccSeed (by decide)) (by decide)

/-- C5: for every 32-byte seed, decoding the base58 text `Read` stores gives
the bytes of a multihash, and the public key embedded in it is the Ed25519
public key of the seed; so two seeds whose identifiers are the same text have
the same public key. -/
theorem identifier_round_trip :
    (∀ (d : PeerIdDataSource) (resp : ReadResponse) (seed : List Nat),
      HasError resp.Diagnostics = false → seed.length = 32 → IsBytes seed →
      ∃ text id,
        Read d (request (Base64.EncodeToString seed)) resp
          = .ok ⟨some ⟨.value (Base64.EncodeToString seed), .value text⟩, resp.Diagnostics⟩
        ∧ Base58.Decode text = .ok id
        ∧ Peer.ID.ExtractPublicKey id = .ok (.ed25519 (Ed25519.publicKey seed)))
    ∧ ∀ (d : PeerIdDataSource) (resp : ReadResponse) (seed1 seed2 : List Nat) (text : List Nat),
        HasError resp.Diagnostics = false →
        seed1.length = 32 → IsBytes seed1 → seed2.length = 32 → IsBytes seed2 →
        Read d (request (Base64.EncodeToString seed1)) resp
          = .ok ⟨some ⟨.value (Base64.EncodeToString seed1), .value text⟩, resp.Diagnostics⟩ →
        Read d (request (Base64.EncodeToString seed2)) resp
          = .ok ⟨some ⟨.value (Base64.EncodeToString seed2), .value text⟩, resp.Diagnostics⟩ →
        Ed25519.publicKey seed1 = Ed25519.publicKey seed2 := by
  have rd : ∀ (d : PeerIdDataSource) (resp : ReadResponse) (seed : List Nat),
      HasError resp.Diagnostics = false → seed.length = 32 → IsBytes seed →
      Read d (request (Base64.EncodeToString seed)) resp
        = .ok ⟨some ⟨.value (Base64.EncodeToString seed),
                  .value (Base58.Encode ([0x00, 36] ++ ([0x08, 0x01, 0x12, 0x20]
                            ++ Ed25519.publicKey seed)))⟩, resp.Diagnostics⟩ :=
    fun d resp seed hresp hlen hb =>
      read_of_seed d _ resp seed hresp (Base64.decodeString_encodeToString seed hb) hlen
  constructor
  · intro d resp seed hresp hlen hb
    exact ⟨_, _, rd d resp seed hresp hlen hb,
      Base58.decode_encode_ed25519_id _ (publicKey_length seed) (publicKey_isBytes seed),
      extractPublicKey_ed25519_id _ (publicKey_length seed)⟩
  · intro d resp seed1 seed2 text hresp hl1 hb1 hl2 hb2 h1 h2
    rw [rd d resp seed1 hresp hl1 hb1] at h1
    rw [rd d resp seed2 hresp hl2 hb2] at h2
    have e1 : Base58.Encode ([0x00, 36] ++ ([0x08, 0x01, 0x12, 0x20]
        ++ Ed25519.publicKey seed1)) = text := by
      simpa using h1
    have e2 : Base58.Encode ([0x00, 36] ++ ([0x08, 0x01, 0x12, 0x20]
        ++ Ed25519.publicKey seed2)) = text := by
      simpa using h2
    have d1 := Base58.decode_encode_ed25519_id _ (publicKey_length seed1)
      (publicKey_isBytes seed1)
    have d2 := Base58.decode_encode_ed25519_id _ (publicKey_length seed2)
      (publicKey_isBytes seed2)
    rw [e1] at d1
    rw [e2, d1] at d2
    simpa using d2

/-- Witness of C5: the identifier of the acceptance test, read back. -/
theorem identifier_round_trip_witness :
    ∃ text id,
      Read ⟨none⟩ (request testAccKey) emptyResponse
        = .ok ⟨some ⟨.value testAccKey, .value text⟩, []⟩
      ∧ Base58.Decode text = .ok id
      ∧ Peer.ID.ExtractPublicKey id = .ok (.ed25519 (Ed25519.publicKey testAccSeed)) :=
  identifier_round_trip.1 ⟨none⟩ emptyResponse testAccSeed rfl (by decide) (by decide)

/-- Counterexample to C6: the literal of the acceptance test has 32
characters, its base64 decodes to those 32 bytes, not to 33, and `Read` does
not answer with the length error. -/
theorem test_literal_has_32_bytes :
    Base64.DecodeString testAccKey = .ok testAccSeed
    ∧ testAccSeed.length = 32
    ∧ Read ⟨none⟩ (request testAccKey) emptyResponse
        ≠ .ok ⟨none, [⟨Severity.Error, "Invalid secrey key length", "Should be 32"⟩]⟩ := by
  decide!

/-- C6, amended: the literal `00000000000000000000000000000001` is 31 zeros
and a one, 32 bytes; base64-encoded and passed as `ed25519_secret_key` it
passes the length check and `Read` stores the identifier of the acceptance
test without a diagnostic.  It is the seed of 32 zeros and a one, 33 bytes,
that meets the length error. -/
theorem test_literal_is_accepted (d : PeerIdDataSource) :
    testAccSeed = List.replicate 31 48 ++ [49]
    ∧ testAccSeed.length = 32
    ∧ Base64.DecodeString testAccKey = .ok testAccSeed
    ∧ Read d (request testAccKey) emptyResponse
        = .ok ⟨some ⟨.value testAccKey, .value testAccExpected⟩, []⟩
    ∧ Read d (request (Base64.EncodeToString (List.replicate 32 48 ++ [49]))) emptyResponse
        = .ok ⟨none, [⟨Severity.Error, "Invalid secrey key length", "Should be 32"⟩]⟩ := by
  refine ⟨by decide, by decide, by decide!, ?_, ?_⟩
  · rw [read_client_irrelevant d ⟨none⟩]
    decide!
  · rw [read_client_irrelevant d ⟨none⟩]
    decide!

/-- Counterexample to C7: seeds of 31 and of 33 bytes get the same response,
with the same diagnostic; nothing in it tells the two lengths apart. -/
theorem length_error_hides_the_length :
    (∃ b1 b2,
      Base64.DecodeString (Base64.EncodeToString (List.replicate 31 0)) = .ok b1
      ∧ Base64.DecodeString (Base64.EncodeToString (List.replicate 33 0)) = .ok b2
      ∧ b1.length = 31 ∧ b2.length = 33)
    ∧ Read ⟨none⟩ (request (Base64.EncodeToString (List.replicate 31 0))) emptyResponse
        = .ok ⟨none, [⟨Severity.Error, "Invalid secrey key length", "Should be 32"⟩]⟩
    ∧ Read ⟨none⟩ (request (Base64.EncodeToString (List.replicate 33 0))) emptyResponse
        = .ok ⟨none, [⟨Severity.Error, "Invalid secrey key length", "Should be 32"⟩]⟩ := by
  refine ⟨⟨List.replicate 31 0, List.replicate 33 0, by decide!, by decide!, by decide,
    by decide⟩, by decide!, by decide!⟩

/-- C7, amended: for every input that decodes to `n` bytes with `n` other
than 32, the error `Read` reports is the fixed diagnostic "Invalid secrey key
length" with the detail "Should be 32"; it does not carry `n`, and two inputs
of different wrong lengths get the same response. -/
theorem length_error_is_fixed (d : PeerIdDataSource) (resp : ReadResponse)
    (s1 s2 b1 b2 : List Nat) (hresp : HasError resp.Diagnostics = false)
    (h1 : Base64.DecodeString s1 = .ok b1) (h2 : Base64.DecodeString s2 = .ok b2)
    (hl1 : b1.length ≠ 32) (hl2 : b2.length ≠ 32) :
    Read d (request s1) resp = Read d (request s2) resp
    ∧ ∃ r, Read d (request s1) resp = .ok r
        ∧ r.Diagnostics.getLast? = some ⟨Severity.Error, "Invalid secrey key length",
            "Should be 32"⟩ := by
  have e1 := read_of_bad_length d ⟨.value s1, .null⟩ resp b1 hresp h1 hl1
  have e2 := read_of_bad_length d ⟨.value s2, .null⟩ resp b2 hresp h2 hl2
  refine ⟨?_, _, e1, ?_⟩
  · exact e1.trans e2.symm
  · simp [lengthError]

/-- Witness of C7: the empty input and the base64 of one byte. -/
theorem length_error_is_fixed_witness :
    Read ⟨none⟩ (request (ascii "")) emptyResponse
        = Read ⟨none⟩ (request (ascii "QQ==")) emptyResponse
    ∧ ∃ r, Read ⟨none⟩ (request (ascii "")) emptyResponse = .ok r
        ∧ r.Diagnostics.getLast? = some ⟨Severity.Error, "Invalid secrey key length",
            "Should be 32"⟩ :=
  length_error_is_fixed ⟨none⟩ emptyResponse (ascii "") (ascii "QQ==") [] [65] rfl
    (by decide) (by decide) (by decide) (by decide)

/-- C8: for every 32-byte seed the wire-encoded public key, the key-type tag
and the 32 key bytes, is 36 bytes long, within the 42 of
`maxInlineKeyLength`; so the identifier `Read` computes is the identity
multihash of it, the code `0x00`, the length 36 and the 36 bytes, 38 bytes in
all, and not the SHA-256 multihash. -/
theorem identifier_is_identity_multihash (d : PeerIdDataSource) (resp : ReadResponse)
    (seed : List Nat) (hresp : HasError resp.Diagnostics = false)
    (hlen : seed.length = 32) (hb : IsBytes seed) :
    ∃ wire peer_id,
      Crypto.MarshalPublicKey (.ed25519 (Ed25519.publicKey seed)) = .ok wire
      ∧ wire = [0x08, 0x01, 0x12, 0x20] ++ Ed25519.publicKey seed
      ∧ wire.length = 36 ∧ wire.length ≤ Peer.maxInlineKeyLength
      ∧ Peer.IDFromPublicKey (some (.ed25519 (Ed25519.publicKey seed))) = .ok (peer_id, none)
      ∧ peer_id = [0x00, 36] ++ wire ∧ peer_id.length = 38
      ∧ Multihash.Sum wire Multihash.IDENTITY = .ok peer_id
      ∧ Multihash.Sum wire Multihash.SHA2_256 ≠ .ok peer_id
      ∧ Read d (request (Base64.EncodeToString seed)) resp
          = .ok ⟨some ⟨.value (Base64.EncodeToString seed), .value (Peer.ID.String peer_id)⟩,
                 resp.Diagnostics⟩ := by
  have hpl := publicKey_length seed
  have h0 : Varint.PutUvarint Multihash.IDENTITY = [0] := by decide
  have h36 : Varint.PutUvarint 36 = [36] := by decide
  have h18 : Varint.PutUvarint Multihash.SHA2_256 = [18] := by decide
  refine ⟨[0x08, 0x01, 0x12, 0x20] ++ Ed25519.publicKey seed,
    [0x00, 36] ++ ([0x08, 0x01, 0x12, 0x20] ++ Ed25519.publicKey seed),
    marshal_ed25519 _ hpl, rfl, by simp [hpl], by simp [hpl, Peer.maxInlineKeyLength],
    idFromPublicKey_ed25519 _ hpl, rfl, by simp [hpl], ?_, ?_, ?_⟩
  · simp [Multihash.Sum, Multihash.Encode, h0, h36, hpl]
  · have hne : Multihash.SHA2_256 ≠ Multihash.IDENTITY := by decide
    simp [Multihash.Sum, Multihash.Encode, hne, h18]
  · exact read_of_seed d _ resp seed hresp (Base64.decodeString_encodeToString seed hb) hlen

/-- Witness of C8: the seed of the acceptance test. -/
theorem identifier_is_identity_multihash_witness :
    ∃ wire peer_id,
      Crypto.MarshalPublicKey (.ed25519 (Ed25519.publicKey testAccSeed)) = .ok wire
      ∧ wire = [0x08, 0x01, 0x12, 0x20] ++ Ed25519.publicKey testAccSeed
      ∧ wire.length = 36 ∧ wire.length ≤ Peer.maxInlineKeyLength
      ∧ Peer.IDFromPublicKey (some (.ed25519 (Ed25519.publicKey testAccSeed)))
          = .ok (peer_id, none)
      ∧ peer_id = [0x00, 36] ++ wire ∧ peer_id.length = 38
      ∧ Multihash.Sum wire Multihash.IDENTITY = .ok peer_id
      ∧ Multihash.Sum wire Multihash.SHA2_256 ≠ .ok peer_id
      ∧ Read ⟨none⟩ (request testAccKey) emptyResponse
          = .ok ⟨some ⟨.value testAccKey, .value (Peer.ID.String peer_id)⟩, []⟩ :=
  identifier_is_identity_multihash ⟨none⟩ emptyResponse testAccSeed rfl (by decide) (by decide)

/-- C10: for every 32-byte seed the text `Read` stores in `base58` is 52
characters long, starts with `12D3KooW`, and is made of characters of the
Bitcoin alphabet, so none of `0`, `O`, `I` and `l`. -/
theorem identifier_text_shape (d : PeerIdDataSource) (resp : ReadResponse)
    (seed : List Nat) (hresp : HasError resp.Diagnostics = false)
    (hlen : seed.length = 32) (hb : IsBytes seed) :
    ∃ text,
      Read d (request (Base64.EncodeToString seed)) resp
        = .ok ⟨some ⟨.value (Base64.EncodeToString seed), .value text⟩, resp.Diagnostics⟩
      ∧ text.length = 52
      ∧ text.take 8 = ascii "12D3KooW"
      ∧ (∀ c ∈ text, c ∈ Base58.BTCAlphabet)
      ∧ ∀ c ∈ text, c ≠ '0'.toNat ∧ c ≠ 'O'.toNat ∧ c ≠ 'I'.toNat ∧ c ≠ 'l'.toNat := by
  have hshape := Base58.encode_ed25519_id (Ed25519.publicKey seed) (publicKey_length seed)
    (publicKey_isBytes seed)
  have h8 : (ascii "12D3KooW").length = 8 := by decide
  have hmem : ∀ c ∈ Base58.Encode ([0x00, 36] ++ ([0x08, 0x01, 0x12, 0x20]
      ++ Ed25519.publicKey seed)), c ∈ Base58.BTCAlphabet := by
    intro c hc
    rw [hshape, List.mem_append] at hc
    rcases hc with hc | hc
    · have : ∀ x ∈ ascii "12D3KooW", x ∈ Base58.BTCAlphabet := by decide
      exact this c hc
    · simp only [List.mem_map, List.mem_reverse] at hc
      obtain ⟨v, hv, rfl⟩ := hc
      exact Base58.encodeDigit_mem v (Base58.lowDigits_lt 44 _ v hv)
  have hplain : ∀ c ∈ Base58.BTCAlphabet,
      c ≠ '0'.toNat ∧ c ≠ 'O'.toNat ∧ c ≠ 'I'.toNat ∧ c ≠ 'l'.toNat := by decide
  refine ⟨_, read_of_seed d _ resp seed hresp (Base64.decodeString_encodeToString seed hb) hlen,
    ?_, ?_, hmem, fun c hc => hplain c (hmem c hc)⟩
  · rw [hshape]
    simp [h8, Base58.lowDigits_length]
  · rw [hshape, List.take_left' h8]

/-- Witness of C10: the seed of the acceptance test. -/
theorem identifier_text_shape_witness :
    ∃ text,
      Read ⟨none⟩ (request testAccKey) emptyResponse
        = .ok ⟨some ⟨.value testAccKey, .value text⟩, []⟩
      ∧ text.length = 52
      ∧ text.take 8 = ascii "12D3KooW"
      ∧ (∀ c ∈ text, c ∈ Base58.BTCAlphabet)
      ∧ ∀ c ∈ text, c ≠ '0'.toNat ∧ c ≠ 'O'.toNat ∧ c ≠ 'I'.toNat ∧ c ≠ 'l'.toNat :=
  identifier_text_shape ⟨none⟩ emptyResponse testAccSeed rfl (by decide) (by decide)

/-- C9: two invocations of `Read` with the same `ed25519_secret_key` have the
same outcome, in whatever states of a run they happen (also one right after
the other), on whatever data sources (whatever their `client`) and whatever
the configuration says for `base58`; and the outcome is the one the key
fixes: the "Base64 decode" error when it does not decode, the length error
when it decodes to another length than 32, the identifier of the decoded
bytes when it decodes to 32 bytes. -/
theorem read_is_deterministic (w1 w2 : World) (d1 d2 : PeerIdDataSource)
    (key base58a base58b : TfString) (resp : ReadResponse)
    (h1 : Reachable w1) (h2 : Reachable w2) :
    (ReadIn w1 d1 ⟨⟨key, base58a⟩⟩ resp).2 = (ReadIn w2 d2 ⟨⟨key, base58b⟩⟩ resp).2
    ∧ (ReadIn (ReadIn w1 d1 ⟨⟨key, base58a⟩⟩ resp).1 d2 ⟨⟨key, base58b⟩⟩ resp).2
        = (ReadIn w1 d1 ⟨⟨key, base58a⟩⟩ resp).2
    ∧ (HasError resp.Diagnostics = false →
        (∀ e, Base64.DecodeString key.ValueString = .error e →
          (ReadIn w1 d1 ⟨⟨key, base58a⟩⟩ resp).2
            = .ok ⟨resp.State,
                   resp.Diagnostics
                     ++ [⟨Severity.Error, "Base64 decode",
                          "Failed to base64-decode the provided secret key"⟩]⟩)
        ∧ (∀ bytes, Base64.DecodeString key.ValueString = .ok bytes → bytes.length ≠ 32 →
          (ReadIn w1 d1 ⟨⟨key, base58a⟩⟩ resp).2
            = .ok ⟨resp.State,
                   resp.Diagnostics
                     ++ [⟨Severity.Error, "Invalid secrey key length", "Should be 32"⟩]⟩)
        ∧ (∀ bytes, Base64.DecodeString key.ValueString = .ok bytes → bytes.length = 32 →
          (ReadIn w1 d1 ⟨⟨key, base58a⟩⟩ resp).2
            = .ok ⟨some ⟨key, .value (specPeerId bytes)⟩, resp.Diagnostics⟩)) := by
  have e1 := readIn_outcome w1 d1 ⟨⟨key, base58a⟩⟩ resp (reachable_inlining w1 h1)
  have e2 := readIn_outcome w2 d2 ⟨⟨key, base58b⟩⟩ resp (reachable_inlining w2 h2)
  have h3 : Reachable (ReadIn w1 d1 ⟨⟨key, base58a⟩⟩ resp).1 := Reachable.read _ _ _ _ h1
  have e3 := readIn_outcome _ d2 ⟨⟨key, base58b⟩⟩ resp (reachable_inlining _ h3)
  have ek := read_eq_of_key d1 d2 key base58a base58b resp
  refine ⟨by rw [e1, e2, ek], by rw [e3, e1, ek], ?_⟩
  intro hresp
  rw [e1]
  refine ⟨?_, ?_, ?_⟩
  · intro e hdec
    exact read_of_decode_error d1 ⟨key, base58a⟩ resp e hresp hdec
  · intro bytes hdec hlen
    exact read_of_bad_length d1 ⟨key, base58a⟩ resp bytes hresp hdec hlen
  · intro bytes hdec hlen
    rw [specPeerId_eq]
    exact read_of_seed d1 ⟨key, base58a⟩ resp bytes hresp hdec hlen

/-- Witness of C9: the key of the acceptance test, read first in the initial
state by a data source without a client, then, in the state that call leaves,
by a data source `Configure` has given a client, with another `base58` in the
configuration. -/
theorem read_is_deterministic_witness :
    Reachable initialWorld
    ∧ Reachable (ReadIn initialWorld NewPeerIdDataSource (request testAccKey) emptyResponse).1
    ∧ (ReadIn initialWorld NewPeerIdDataSource (request testAccKey) emptyResponse).1
        ≠ initialWorld
    ∧ (Configure NewPeerIdDataSource (.httpClient ⟨30⟩) ⟨[]⟩).1 ≠ NewPeerIdDataSource
    ∧ (ReadIn initialWorld NewPeerIdDataSource ⟨⟨.value testAccKey, .null⟩⟩ emptyResponse).2
        = (ReadIn
            (ReadIn initialWorld NewPeerIdDataSource (request testAccKey) emptyResponse).1
            (Configure NewPeerIdDataSource (.httpClient ⟨30⟩) ⟨[]⟩).1
            ⟨⟨.value testAccKey, .value (ascii "other")⟩⟩ emptyResponse).2
    ∧ (ReadIn initialWorld NewPeerIdDataSource ⟨⟨.value testAccKey, .null⟩⟩ emptyResponse).2
        = .ok ⟨some ⟨.value testAccKey, .value (specPeerId testAccSeed)⟩, []⟩ :=
  ⟨Reachable.initial, Reachable.read _ _ _ _ Reachable.initial, by decide!, by decide,
   (read_is_deterministic initialWorld
      (ReadIn initialWorld NewPeerIdDataSource (request testAccKey) emptyResponse).1
      NewPeerIdDataSource (Configure NewPeerIdDataSource (.httpClient ⟨30⟩) ⟨[]⟩).1
      (.value testAccKey) .null (.value (ascii "other")) emptyResponse
      Reachable.initial (Reachable.read _ _ _ _ Reachable.initial)).1,
   ((read_is_deterministic initialWorld initialWorld NewPeerIdDataSource NewPeerIdDataSource
      (.value testAccKey) .null .null emptyResponse Reachable.initial Reachable.initial).2.2
      rfl).2.2 testAccSeed (Base64.decodeString_encodeToString testAccSeed (by decide))
      (by decide)⟩

/-! ## Further properties of `Read` -/

/-- X1: `Read` answers with the "Base64 decode" diagnostic exactly for the
inputs that are not well-formed padded base64 once their line feeds and
carriage returns are taken out. -/
theorem decode_error_iff_malformed (d : PeerIdDataSource) (resp : ReadResponse)
    (s : List Nat) (hresp : HasError resp.Diagnostics = false) :
    Read d (request s) resp
        = .ok ⟨resp.State,
               resp.Diagnostics
                 ++ [⟨Severity.Error, "Base64 decode",
                      "Failed to base64-decode the provided secret key"⟩]⟩
      ↔ Base64.isStdPadded (Base64.stripNewlines s) = false := by
  constructor
  · intro h
    cases hw : Base64.isStdPadded (Base64.stripNewlines s) with
    | false => rfl
    | true =>
      obtain ⟨bytes, hdec⟩ := (Base64.decodeString_ok_iff s).mpr hw
      by_cases hlen : bytes.length = 32
      · have e := read_of_seed d ⟨.value s, .null⟩ resp bytes hresp hdec hlen
        rw [show Read d (request s) resp = Read d ⟨⟨.value s, .null⟩⟩ resp from rfl, e] at h
        have := congrArg (fun r => r.toOption.map (fun x => x.Diagnostics.length)) h
        simp [Except.toOption] at this
      · have e := read_of_bad_length d ⟨.value s, .null⟩ resp bytes hresp hdec hlen
        rw [show Read d (request s) resp = Read d ⟨⟨.value s, .null⟩⟩ resp from rfl, e] at h
        simp [lengthError] at h
  · intro hbad
    cases hdec : Base64.DecodeString s with
    | error e => exact read_of_decode_error d _ resp e hresp hdec
    | ok bytes =>
      have := Base64.isStdPadded_of_decodeString s bytes hdec
      rw [hbad] at this
      cases this

/-- Witness of X1: a key with a missing padding character. -/
theorem decode_error_iff_malformed_witness :
    Read ⟨none⟩ (request (ascii "QQ=")) emptyResponse
        = .ok ⟨none, [⟨Severity.Error, "Base64 decode",
                       "Failed to base64-decode the provided secret key"⟩]⟩
      ↔ Base64.isStdPadded (Base64.stripNewlines (ascii "QQ=")) = false :=
  decode_error_iff_malformed ⟨none⟩ emptyResponse (ascii "QQ=") rfl

/-- X2: a response that already holds an error diagnostic comes back as it
is: `Read` returns before it decodes the key. -/
theorem read_returns_on_earlier_error (d : PeerIdDataSource) (req : ReadRequest)
    (resp : ReadResponse) (hresp : HasError resp.Diagnostics = true) :
    Read d req resp = .ok resp := by
  simp [Read, Config.Get, Append, hresp]

/-- Witness of X2: a response with one error diagnostic. -/
theorem read_returns_on_earlier_error_witness :
    Read ⟨none⟩ (request testAccKey) ⟨none, [⟨Severity.Error, "earlier", "error"⟩]⟩
      = .ok ⟨none, [⟨Severity.Error, "earlier", "error"⟩]⟩ :=
  read_returns_on_earlier_error ⟨none⟩ (request testAccKey) _ rfl

/-- X3: `Read` returns on every request and response; neither
`NewKeyFromSeed` nor `IDFromPublicKey` panics in it. -/
theorem read_never_panics (d : PeerIdDataSource) (req : ReadRequest) (resp : ReadResponse) :
    ∃ r, Read d req resp = .ok r := by
  cases hresp : HasError resp.Diagnostics with
  | true => exact ⟨resp, by simp [Read, Config.Get, Append, hresp]⟩
  | false =>
    obtain ⟨c⟩ := req
    cases hdec : Base64.DecodeString c.ed25519_secret_key.ValueString with
    | error e => exact ⟨_, read_of_decode_error d c resp e hresp hdec⟩
    | ok bytes =>
      by_cases hlen : bytes.length = 32
      · exact ⟨_, read_of_seed d c resp bytes hresp hdec hlen⟩
      · exact ⟨_, read_of_bad_length d c resp bytes hresp hdec hlen⟩

/-- X4: the package variable `AdvancedEnableInlining` is state the outcome
hangs on: were it `false`, the same key would get the identifier of the
SHA-256 multihash.  No call of `Read` writes it, so no state of a run has it
`false`. -/
theorem inlining_decides_the_identifier :
    (ReadIn ⟨false, []⟩ NewPeerIdDataSource (request testAccKey) emptyResponse).2
        = .ok ⟨some ⟨.value testAccKey,
                     .value (ascii "QmRFA6nzVn2ihDvoeDAnyvEFtdXTCAmnqSTkDaNono5Qez")⟩, []⟩
    ∧ (ReadIn initialWorld NewPeerIdDataSource (request testAccKey) emptyResponse).2
        = .ok ⟨some ⟨.value testAccKey, .value testAccExpected⟩, []⟩
    ∧ ∀ w, Reachable w → w.AdvancedEnableInlining = true :=
  ⟨by decide!, by decide!, reachable_inlining⟩

end Provider
